import Mathlib

/-!
# Verification of the parser-tml core (lexer/parser, validator, compiler, interpreter)

This file gives a shallow embedding, in Lean 4, of the parts of the
parser-tml repository that the frozen claims are about:

* the syntax-tree data model (`Context.ts` node kinds, as used by the
  sources under `src/`),
* the tape (`TMTape`, whose source is embedded in the repository's
  `CodeParserErrors.spec.ts` file),
* the tree-walking interpreter (`CodeExecutor.ts`),
* the lowering compiler (`CodeConverter`, whose source is embedded in the
  repository's `CodeParser.spec.ts` file),
* the two attested variants of the static validator (`CodeValidator.ts`
  and the variant embedded in `CodeParserErrors.spec.ts`),
* the parser's controlled token-advance wrapper (`CodeParser.ts`,
  `_moveNext` / `_matchIndent`).

JavaScript `Map`s are modelled as insertion-ordered association lists with
update-in-place semantics, and JavaScript `Set`s as duplicate-free
insertion-ordered lists.  Functions that in TypeScript throw or recurse
without bound are modelled in the `Option` monad (with explicit fuel for
the compiler's non-structural recursion); `none` means the original either
crashed or ran out of the supplied fuel.
-/

/-- JavaScript `Map<string, string>`: insertion-ordered association list. -/
abbrev JsMap := List (String × String)

/-- `Map.set`: updates the value in place if the key is present, else appends. -/
def jsSet : JsMap → String → String → JsMap
  | [], k, v => [(k, v)]
  | (k0, v0) :: rest, k, v =>
      if k0 == k then (k, v) :: rest else (k0, v0) :: jsSet rest k v

/-- `Map.get`: the value at the key, if present. -/
def jsGet : JsMap → String → Option String
  | [], _ => none
  | (k0, v0) :: rest, k => if k0 == k then some v0 else jsGet rest k

/-- `Map.values()`, in insertion order. -/
def jsValues (m : JsMap) : List String := m.map Prod.snd

/-- `Map.keys()`, in insertion order. -/
def jsKeys (m : JsMap) : List String := m.map Prod.fst

/-- JavaScript `Map<string, number>` used for the compiler's label counters. -/
abbrev JsMapNat := List (String × Nat)

/-- `Map.set` for the counter map. -/
def jsSetNat : JsMapNat → String → Nat → JsMapNat
  | [], k, v => [(k, v)]
  | (k0, v0) :: rest, k, v =>
      if k0 == k then (k, v) :: rest else (k0, v0) :: jsSetNat rest k v

/-- `Map.get` for the counter map. -/
def jsGetNat : JsMapNat → String → Option Nat
  | [], _ => none
  | (k0, v0) :: rest, k => if k0 == k then some v0 else jsGetNat rest k

/-- JavaScript `Set<string>`: duplicate-free insertion-ordered list.
`Set.add` appends only when the element is absent. -/
def setAdd (s : List String) (v : String) : List String :=
  if s.contains v then s else s ++ [v]

/-- `new Set(values)`: deduplicate, keeping the first occurrence of each value. -/
def mkSet (l : List String) : List String := l.foldl setAdd []

/-- `Set.delete`: returns whether the element was present, and the set without it. -/
def setDelete (s : List String) (v : String) : Bool × List String :=
  (s.contains v, s.erase v)

/-- JavaScript `value.trim().length === 0`: every character is whitespace
(our tape symbols are single non-space characters or the empty string). -/
def strIsWhitespaceOnly (s : String) : Bool := s.toList.all Char.isWhitespace

/-- The four head directions of `Context.ts` (`Direction.LEFT/RIGHT/START/END`). -/
inductive Direction where
  | left
  | right
  | start
  | endDir
deriving DecidableEq

/-- The three termination statuses of `Context.ts`
(`TerminationState.ACCEPT/REJECT/HALT`, a string enum whose values are the
lowercase status names, as required by the automaton tests). -/
inductive TerminationState where
  | accept
  | reject
  | halt
deriving DecidableEq

/-- The string value of a `TerminationState` (its `toString()`). -/
def TerminationState.label : TerminationState → String
  | .accept => "accept"
  | .reject => "reject"
  | .halt => "halt"

/-- `ChangeToContext`: the target symbol; blank is the empty string. -/
structure ChangeToContext where
  value : String
deriving DecidableEq

/-- `MoveContext`: the head direction. -/
structure MoveContext where
  direction : Direction
deriving DecidableEq

/-- `GoToContext`: target module identifier and argument values. -/
structure GoToContext where
  identifier : String
  args : List String
deriving DecidableEq

/-- `FlowChangeContext`: either a `GoToContext` or a `TerminationContext`. -/
inductive FlowChangeContext where
  | goTo (cmd : GoToContext)
  | termination (state : TerminationState)
deriving DecidableEq

/-- `CoreBasicBlockContext`: the body of a While case (no flow command). -/
structure CoreBasicBlockContext where
  changeToCommand : Option ChangeToContext
  moveCommand : Option MoveContext
deriving DecidableEq

/-- `BasicBlockContext`: optional changeto, move and flow commands. -/
structure BasicBlockContext where
  changeToCommand : Option ChangeToContext
  moveCommand : Option MoveContext
  flowCommand : Option FlowChangeContext
deriving DecidableEq

mutual
/-- `NormalBlockContext`: a basic block or a switch block. -/
inductive NormalBlockContext where
  | basic (b : BasicBlockContext)
  | switch (cases : List CaseContext)

/-- `CaseContext`: an if case, a while case, or an else case. -/
inductive CaseContext where
  | ifCase (values : List String) (blocks : List NormalBlockContext)
  | whileCase (values : List String) (block : CoreBasicBlockContext)
  | elseCase (blocks : List NormalBlockContext)
end

/-- `ModuleContext`: identifier, parameter names, and body blocks. -/
structure ModuleContext where
  identifier : String
  params : List String
  blocks : List NormalBlockContext

/-- `AlphabetContext`: the ordered alphabet values. -/
structure AlphabetContext where
  values : List String

/-- `ProgramContext`: one alphabet and the ordered list of modules. -/
structure ProgramContext where
  alphabet : AlphabetContext
  modules : List ModuleContext

/-- `CaseContext.firstBlock`, restricted to the shapes the executor can use: a
basic block (for if/else, the head of the body, which the validator requires
to be basic) or the core block of a while case.  A non-basic head (which the
TypeScript cast would let through, later crashing the executor) is `none`. -/
def CaseContext.firstBlock : CaseContext → Option (BasicBlockContext ⊕ CoreBasicBlockContext)
  | .ifCase _ blocks =>
      match blocks with
      | .basic b :: _ => some (Sum.inl b)
      | _ => none
  | .elseCase blocks =>
      match blocks with
      | .basic b :: _ => some (Sum.inl b)
      | _ => none
  | .whileCase _ cb => some (Sum.inr cb)

/-- Modelled from the spec: `Context.ts` (which defines
`ChangeToContext.getNextValue`) is not under `src/`.  Per §4.7 of the spec,
ChangeTo resolution substitutes argument values for parameter names under the
active argument bindings, exactly as the compiler's
`this._currentArgumentMap.get(value) || value` resolution does. -/
def getNextValue (m : JsMap) (value : String) : String :=
  match jsGet m value with
  | some s => if s == "" then value else s
  | none => value

/-- Modelled from the spec: `Context.ts` (which defines `CaseContext.applies`)
is not under `src/`.  Per §4.7 of the spec, a case applies when one of its
trigger values matches the current tape symbol under the active argument
bindings (a trigger value that is a bound parameter name denotes the bound
argument value); an else case always applies. -/
def caseApplies (tapehead : String) (m : JsMap) : CaseContext → Bool
  | .ifCase values _ => values.any fun v => getNextValue m v == tapehead
  | .whileCase values _ => values.any fun v => getNextValue m v == tapehead
  | .elseCase _ => true

/-! ## The tape (`TMTape`, source embedded in `CodeParserErrors.spec.ts`) -/

/-- `TMTape`: the sparse map of non-blank values and the head index. -/
structure TMTape where
  valueMap : List (Int × String)
  currentIndex : Int
deriving DecidableEq

/-- `Map.set` for the tape's value map. -/
def tapeSet : List (Int × String) → Int → String → List (Int × String)
  | [], k, v => [(k, v)]
  | (k0, v0) :: rest, k, v =>
      if k0 == k then (k, v) :: rest else (k0, v0) :: tapeSet rest k v

/-- `Map.get` for the tape's value map. -/
def tapeLookup : List (Int × String) → Int → Option String
  | [], _ => none
  | (k0, v0) :: rest, k => if k0 == k then some v0 else tapeLookup rest k

/-- `Map.delete` for the tape's value map. -/
def tapeDelete : List (Int × String) → Int → List (Int × String)
  | [], _ => []
  | (k0, v0) :: rest, k =>
      if k0 == k then rest else (k0, v0) :: tapeDelete rest k

/-- `TMTape._minIndex`: the minimum stored position, or 0 if none. -/
def TMTape.minIndex (t : TMTape) : Int :=
  match t.valueMap.foldl
      (fun (acc : Option Int) kv =>
        match acc with
        | none => some kv.1
        | some m => if kv.1 < m then some kv.1 else some m) none with
  | some m => m
  | none => 0

/-- `TMTape._maxIndex`: the maximum stored position, or 0 if none. -/
def TMTape.maxIndex (t : TMTape) : Int :=
  match t.valueMap.foldl
      (fun (acc : Option Int) kv =>
        match acc with
        | none => some kv.1
        | some m => if kv.1 > m then some kv.1 else some m) none with
  | some m => m
  | none => 0

/-- The `TMTape` constructor: stores every non-whitespace character of the
initial value at its index; the head starts at 0. -/
def TMTape.fromString (value : String) : TMTape :=
  { valueMap :=
      (List.range value.length).foldl
        (fun acc i =>
          let c := String.mk [value.toList.getD i ' ']
          if !strIsWhitespaceOnly c then tapeSet acc (Int.ofNat i) c else acc)
        [],
    currentIndex := 0 }

/-- `TMTape.change`: writes the letter at the head (blank removes the entry). -/
def TMTape.change (t : TMTape) (letter : String) : TMTape :=
  if strIsWhitespaceOnly letter then
    { t with valueMap := tapeDelete t.valueMap t.currentIndex }
  else
    { t with valueMap := tapeSet t.valueMap t.currentIndex letter }

/-- `TMTape.move`: moves the head in the given direction (the `switch`
statement's `default` branch moves right). -/
def TMTape.move (t : TMTape) (direction : Direction) : TMTape :=
  match direction with
  | .left => { t with currentIndex := t.currentIndex - 1 }
  | .start => { t with currentIndex := t.minIndex }
  | .endDir => { t with currentIndex := t.maxIndex }
  | .right => { t with currentIndex := t.currentIndex + 1 }

/-- `TMTape.get`: the value at head + i, or blank (`""`) if absent. -/
def TMTape.get (t : TMTape) (i : Int) : String :=
  match tapeLookup t.valueMap (t.currentIndex + i) with
  | some v => v
  | none => ""

/-! ## The automaton model

Modelled from the spec: `TuringMachine.ts` (which defines
`IncompleteTMChange`, `ConstantTMState`, `VariableTMState` and
`TuringMachine`) is not under `src/`.  Per §3 of the spec, a Constant State
has one transition independent of the input symbol and a Variable State maps
each symbol to a transition; a transition's optional write-symbol defaults to
leaving the current symbol unchanged and (per §4.5) a missing direction
defaults to left.  The shapes of `IncompleteTMChange` (fields `nextState`,
`letter`, `direction`), `addState` and `addTransition` follow their uses in
the compiler source embedded in `CodeParser.spec.ts`. -/

/-- `IncompleteTMChange`: next-state label, optional write symbol, optional direction. -/
structure IncompleteTMChange where
  nextState : String
  letter : Option String
  direction : Option Direction
deriving DecidableEq

/-- A state of the automaton: constant (one change for every input symbol) or
variable (a change per input symbol). -/
inductive TMState where
  | constant (change : IncompleteTMChange)
  | variable (transitions : List (String × IncompleteTMChange))
deriving DecidableEq

/-- `Map.get` for a variable state's transition table. -/
def transGet : List (String × IncompleteTMChange) → String → Option IncompleteTMChange
  | [], _ => none
  | (k0, v0) :: rest, k => if k0 == k then some v0 else transGet rest k

/-- `Map.set` for a variable state's transition table. -/
def transSet : List (String × IncompleteTMChange) → String → IncompleteTMChange →
    List (String × IncompleteTMChange)
  | [], k, v => [(k, v)]
  | (k0, v0) :: rest, k, v =>
      if k0 == k then (k, v) :: rest else (k0, v0) :: transSet rest k v

/-- The turing machine being built: initial state label and labelled states
(a JavaScript `Map`, insertion-ordered). -/
structure TuringMachine where
  initialState : String
  states : List (String × TMState)
deriving DecidableEq

/-- `TuringMachine.addState`. -/
def TuringMachine.addState (tm : TuringMachine) (label : String) (s : TMState) : TuringMachine :=
  { tm with states :=
      match tm.states.lookup label with
      | some _ => tm.states.map fun kv => if kv.1 == label then (label, s) else kv
      | none => tm.states ++ [(label, s)] }

/-- `TuringMachine.getState`. -/
def TuringMachine.getState (tm : TuringMachine) (label : String) : Option TMState :=
  tm.states.lookup label

/-- Adds a transition to the named state (mutation of a `VariableTMState`
already stored in the machine). -/
def TuringMachine.addTransition (tm : TuringMachine) (label letter : String)
    (change : IncompleteTMChange) : TuringMachine :=
  { tm with states := tm.states.map fun kv =>
      if kv.1 == label then
        match kv.2 with
        | .variable trs => (kv.1, TMState.variable (transSet trs letter change))
        | s => (kv.1, s)
      else kv }

/-- The change a state prescribes for an input symbol: a constant state's
single change, or a variable state's entry for the symbol. -/
def TMState.transitionFor : TMState → String → Option IncompleteTMChange
  | .constant change, _ => some change
  | .variable trs, letter => transGet trs letter

/-- Resolving an `IncompleteTMChange` against the current symbol: the written
symbol defaults to the current symbol, the direction defaults to left. -/
def resolveChange (ch : IncompleteTMChange) (current : String) : String × Direction :=
  (match ch.letter with | some l => l | none => current,
   match ch.direction with | some d => d | none => Direction.left)

/-! ## The tree-walking interpreter (`CodeExecutor.ts`)

The four parallel stacks of `CodeExecutor` are modelled with the stack top at
the *head* of each list (JavaScript pushes to the end of the array and reads
`arr[arr.length-1]`; the head-first representation is the same stack). -/

/-- The interpreter's state: the tape (from the `TapeExecutor` base class), the
termination status, and the four parallel stacks. -/
structure ExecState where
  tape : TMTape
  terminationStatus : Option TerminationState
  currentBlocksStack : List (List NormalBlockContext)
  currentBlockIndexStack : List Nat
  argumentMapStack : List JsMap
  topLevelModuleStack : List Bool

/-- `CodeExecutor._pushBlocks`: pushes a block list with index 0 and the
module flag; the argument map is handled separately by the caller. -/
def execPushBlocks (s : ExecState) (blocks : List NormalBlockContext)
    (pushingModule : Bool) : ExecState :=
  { s with
    currentBlocksStack := blocks :: s.currentBlocksStack,
    currentBlockIndexStack := 0 :: s.currentBlockIndexStack,
    topLevelModuleStack := pushingModule :: s.topLevelModuleStack }

/-- `CodeExecutor._incrementIndexAndPop`: increments the top index; while the
incremented frame was at its final block, pops it (popping the argument map
exactly when the popped frame is a module frame) and repeats. -/
def execIncrementIndexAndPop :
    List (List NormalBlockContext) → List Nat → List Bool → List JsMap →
    List (List NormalBlockContext) × List Nat × List Bool × List JsMap
  | bs :: restB, i :: restI, mods, maps =>
      if i + 1 < bs.length then
        (bs :: restB, (i + 1) :: restI, mods, maps)
      else
        match mods with
        | m :: restM =>
            execIncrementIndexAndPop restB restI restM (if m then maps.tail else maps)
        | [] => (restB, restI, [], maps)
  | bs, i, mods, maps => (bs, i, mods, maps)

/-- `CodeExecutor._generateAndPushArgumentMap`: builds the binding map with
`argumentMap.set(args[i], params[i])` for each index (note the key is the
argument value) and pushes it onto the argument-map stack. -/
def execGenerateAndPushArgumentMap (params args : List String)
    (maps : List JsMap) : List JsMap :=
  let m := (List.range args.length).foldl
    (fun acc i => jsSet acc (args.getD i "") (params.getD i "undefined")) []
  m :: maps

/-- `CodeExecutor.currentBlock`: the block at the top frame's index, or
`none` once the execution has terminated. -/
def ExecState.currentBlock (s : ExecState) : Option NormalBlockContext :=
  match s.terminationStatus with
  | some _ => none
  | none =>
      match s.currentBlocksStack, s.currentBlockIndexStack with
      | bs :: _, i :: _ => bs.get? i
      | _, _ => none

/-- `CodeExecutor._execute`: applies a block's changeto (default: rewrite the
current letter) and move (default: left) to the tape. -/
def execApplyBlock (tape : TMTape) (changeTo : Option ChangeToContext)
    (moveCmd : Option MoveContext) (letter : String) : TMTape :=
  (tape.change (match changeTo with | some c => c.value | none => letter)).move
    (match moveCmd with | some m => m.direction | none => Direction.left)

/-- `CodeExecutor._findExecutionBlock`: a basic block is executed directly; a
switch block executes the first block of the first applying case, pushing a
new non-module frame for an if/else case's body.  `none` models the crashes
of the TypeScript non-null assertions (no applying case, terminated state, or
a non-basic first block). -/
def execFindExecutionBlock (s : ExecState) (tapehead : String) :
    Option (ExecState × (BasicBlockContext ⊕ CoreBasicBlockContext)) :=
  match s.currentBlock with
  | some (.basic b) => some (s, Sum.inl b)
  | some (.switch cases) =>
      let m := match s.argumentMapStack with | mp :: _ => mp | [] => []
      match cases.find? (fun c => caseApplies tapehead m c) with
      | some c =>
          match c.firstBlock with
          | some fb =>
              match c with
              | .ifCase _ blocks => some (execPushBlocks s blocks false, fb)
              | .elseCase blocks => some (execPushBlocks s blocks false, fb)
              | .whileCase _ _ => some (s, fb)
          | none => none
      | none => none
  | none => none

/-- `CodeExecutor._findNextBlock`: a goto flow command pushes the target
module's blocks and the argument map; a termination flow command sets the
status; otherwise the index is incremented (popping exhausted frames), and an
emptied stack sets the status to reject. -/
def execFindNextBlock (p : ProgramContext) (s : ExecState)
    (b : BasicBlockContext) : Option ExecState :=
  match b.flowCommand with
  | some (.goTo cmd) =>
      match p.modules.find? (fun m => m.identifier == cmd.identifier) with
      | some nextModule =>
          let s1 := execPushBlocks s nextModule.blocks true
          let maps1 := execGenerateAndPushArgumentMap nextModule.params cmd.args s1.argumentMapStack
          some { s1 with argumentMapStack := maps1 }
      | none => none
  | some (.termination ts) => some { s with terminationStatus := some ts }
  | none =>
      let r := execIncrementIndexAndPop s.currentBlocksStack
          s.currentBlockIndexStack s.topLevelModuleStack s.argumentMapStack
      let s1 : ExecState :=
        { s with currentBlocksStack := r.1, currentBlockIndexStack := r.2.1,
                 topLevelModuleStack := r.2.2.1, argumentMapStack := r.2.2.2 }
      if s1.currentBlocksStack.length == 0 then
        some { s1 with terminationStatus := some TerminationState.reject }
      else some s1

/-- `CodeExecutor.execute`: returns `false` immediately once terminated;
otherwise performs exactly one step (resolve the execution block, apply it to
the tape, and — unless it was a core basic block — resolve the next block). -/
def execute (p : ProgramContext) (s : ExecState) : Option (Bool × ExecState) :=
  match s.terminationStatus with
  | some _ => some (false, s)
  | none =>
      let tapehead := s.tape.get 0
      match execFindExecutionBlock s tapehead with
      | none => none
      | some (s1, Sum.inl b) =>
          let s2 := { s1 with
            tape := execApplyBlock s1.tape b.changeToCommand b.moveCommand tapehead }
          match execFindNextBlock p s2 b with
          | some s3 => some (true, s3)
          | none => none
      | some (s1, Sum.inr cb) =>
          some (true, { s1 with
            tape := execApplyBlock s1.tape cb.changeToCommand cb.moveCommand tapehead })

/-- `CodeExecutor._validateTapeValue`: every non-whitespace character of the
initial tape value must be an alphabet value. -/
def execValidateTapeValue (p : ProgramContext) (value : String) : Bool :=
  (List.range value.length).all fun i =>
    let c := String.mk [value.toList.getD i ' ']
    strIsWhitespaceOnly c || p.alphabet.values.contains c

/-- The `CodeExecutor` constructor: builds the tape, validates it against the
program's alphabet, and initialises the stacks with the entry module's
blocks, index 0, an empty argument map and a module frame flag. -/
def execNew (value : String) (p : ProgramContext) : Option ExecState :=
  if execValidateTapeValue p value then
    match p.modules with
    | m0 :: _ =>
        some { tape := TMTape.fromString value, terminationStatus := none,
               currentBlocksStack := [m0.blocks], currentBlockIndexStack := [0],
               argumentMapStack := [[]], topLevelModuleStack := [true] }
    | [] => none
  else none

/-- The observable item of one interpreter step: the symbol written (the
changeto value, defaulting to the current symbol), the head direction (the
move direction, defaulting to left) and the resulting termination status. -/
def execStepItem (p : ProgramContext) (s : ExecState) :
    Option (String × Direction × Option TerminationState) :=
  match s.terminationStatus with
  | some _ => none
  | none =>
      let tapehead := s.tape.get 0
      match execFindExecutionBlock s tapehead, execute p s with
      | some (_, eb), some (_, s3) =>
          let c := match eb with
            | Sum.inl b => b.changeToCommand
            | Sum.inr cb => cb.changeToCommand
          let mv := match eb with
            | Sum.inl b => b.moveCommand
            | Sum.inr cb => cb.moveCommand
          some ((match c with | some cc => cc.value | none => tapehead),
            (match mv with | some mm => mm.direction | none => Direction.left),
            s3.terminationStatus)
      | _, _ => none

/-- The sequence of observable interpreter step items, for at most `n` steps
(stopping at termination or on a crash). -/
def execTrace (p : ProgramContext) (s : ExecState) : Nat →
    List (String × Direction × Option TerminationState)
  | 0 => []
  | n + 1 =>
      match s.terminationStatus with
      | some _ => []
      | none =>
          match execStepItem p s, execute p s with
          | some item, some (_, s1) => item :: execTrace p s1 n
          | _, _ => []

/-! ## Driving the compiled automaton

Modelled from the spec: the driver that steps a compiled automaton against a
tape is not under `src/`.  Per §3/§8 of the spec, one step applies the
current state's transition for the current symbol: it writes the transition's
symbol (defaulting to the current symbol), moves the head (defaulting to
left, §4.5), and moves to the next state, the reserved labels
accept/reject/halt being terminal. -/

/-- One automaton step: the observable item (written symbol, direction,
termination status) together with the next state label and tape. -/
def tmStepItem (tm : TuringMachine) (label : String) (tape : TMTape) :
    Option ((String × Direction × Option TerminationState) × String × TMTape) :=
  match tm.getState label with
  | none => none
  | some st =>
      let current := tape.get 0
      match st.transitionFor current with
      | none => none
      | some ch =>
          let wd := resolveChange ch current
          let tape1 := (tape.change wd.1).move wd.2
          let status : Option TerminationState :=
            if ch.nextState == "accept" then some TerminationState.accept
            else if ch.nextState == "reject" then some TerminationState.reject
            else if ch.nextState == "halt" then some TerminationState.halt
            else none
          some ((wd.1, wd.2, status), ch.nextState, tape1)

/-- The sequence of observable automaton step items, for at most `n` steps. -/
def tmTrace (tm : TuringMachine) : String → TMTape → Nat →
    List (String × Direction × Option TerminationState)
  | _, _, 0 => []
  | label, tape, n + 1 =>
      if label == "accept" || label == "reject" || label == "halt" then []
      else
        match tmStepItem tm label tape with
        | some (item, next, tape1) => item :: tmTrace tm next tape1 n
        | none => []

/-! ## The lowering compiler (`CodeConverter`, source embedded in `CodeParser.spec.ts`)

The compiler's recursion follows `goto` commands into other modules, so it is
not structural; every visiting function therefore takes explicit fuel and
returns `none` when the fuel runs out (or when the original TypeScript would
have crashed).  Stack tops are at the head of each list, as for the
interpreter. -/

/-- The per-key map of `Map<string, ModuleContext>` (`_idToModule`). -/
def mmSet : List (String × ModuleContext) → String → ModuleContext →
    List (String × ModuleContext)
  | [], k, v => [(k, v)]
  | (k0, v0) :: rest, k, v =>
      if k0 == k then (k, v) :: rest else (k0, v0) :: mmSet rest k v

/-- `Map.get` for `_constructedModules`. -/
def cmGet : List (String × List (List String)) → String → Option (List (List String))
  | [], _ => none
  | (k0, v0) :: rest, k => if k0 == k then some v0 else cmGet rest k

/-- `Map.set` for `_constructedModules`. -/
def cmSet : List (String × List (List String)) → String → List (List String) →
    List (String × List (List String))
  | [], k, v => [(k, v)]
  | (k0, v0) :: rest, k, v =>
      if k0 == k then (k, v) :: rest else (k0, v0) :: cmSet rest k v

/-- The compiler's mutable state (`CodeConverter`'s private fields). -/
structure ConvState where
  tm : TuringMachine
  alphabet : List String
  blocksStack : List (List NormalBlockContext)
  indexStack : List Nat
  argMapStack : List JsMap
  identifierStack : List String
  idToModule : List (String × ModuleContext)
  constructedModules : List (String × List (List String))
  identifierIndexMap : JsMapNat

/-- `CodeConverter._currentArgumentMap` (top of the argument-map stack; the
empty map stands for the out-of-bounds read of an empty stack, which no
visit performed by the theorems below reaches). -/
def cvCurrentArgumentMap (st : ConvState) : JsMap :=
  match st.argMapStack with
  | m :: _ => m
  | [] => []

/-- `CodeConverter._currentArgs`: the values of the current argument map. -/
def cvCurrentArgs (st : ConvState) : List String :=
  jsValues (cvCurrentArgumentMap st)

/-- `CodeConverter._currentIdentifier` (top of the identifier stack). -/
def cvCurrentIdentifier (st : ConvState) : String :=
  match st.identifierStack with
  | i :: _ => i
  | [] => ""

/-- `CodeConverter._pushBlocks`: pushes blocks, index 0 and the identifier;
a non-module push duplicates the current argument map. -/
def cvPushBlocks (st : ConvState) (blocks : List NormalBlockContext)
    (identifier : String) (isModule : Bool) : ConvState :=
  { st with
    blocksStack := blocks :: st.blocksStack,
    indexStack := 0 :: st.indexStack,
    identifierStack := identifier :: st.identifierStack,
    argMapStack := if isModule then st.argMapStack
                   else cvCurrentArgumentMap st :: st.argMapStack }

/-- `CodeConverter._popBlocks`: pops all four stacks. -/
def cvPopBlocks (st : ConvState) : ConvState :=
  { st with
    blocksStack := st.blocksStack.tail,
    indexStack := st.indexStack.tail,
    identifierStack := st.identifierStack.tail,
    argMapStack := st.argMapStack.tail }

/-- The base identifier of a module invocation: the identifier alone when the
argument tuple is empty, else the identifier, a dash, and the comma-joined
arguments (the `moduleIdentifier` computation of `_generateNextLabel`). -/
def cvModuleLabelOf (identifier : String) (args : List String) : String :=
  if args.isEmpty then identifier
  else identifier ++ "-" ++ String.intercalate "," args

/-- `CodeConverter._generateNextLabel`: bumps (or initialises, at
`startWith`) the per-base-identifier counter and returns the new label. -/
def cvGenerateNextLabel (identifier : String) (args : List String)
    (startWith : Nat) (st : ConvState) : ConvState × String :=
  let key := cvModuleLabelOf identifier args
  let i1 := match jsGetNat st.identifierIndexMap key with
    | some i => i + 1
    | none => startWith
  ({ st with identifierIndexMap := jsSetNat st.identifierIndexMap key i1 },
   key ++ "-" ++ toString i1)

/-- `CodeConverter._getCurrentLabel`: the label of the current state (the
show-label optionally omits the argument decoration); `none` models the
crash of `i.toString()` when the counter for the current base identifier was
never generated. -/
def cvGetCurrentLabel (addArgs : Bool) (st : ConvState) : Option String :=
  let args := cvCurrentArgs st
  let id := cvCurrentIdentifier st
  let moduleLabel := cvModuleLabelOf id args
  let showLabel := if args.isEmpty then id else if addArgs then moduleLabel else id
  match jsGetNat st.identifierIndexMap moduleLabel with
  | some i => some (showLabel ++ "-" ++ toString i)
  | none => none

/-- `CodeConverter._incrementIndex`: bumps the top index and the current
identifier's label counter. -/
def cvIncrementIndex (st : ConvState) : ConvState :=
  let st1 := { st with indexStack :=
    match st.indexStack with
    | i :: rest => (i + 1) :: rest
    | [] => [] }
  (cvGenerateNextLabel (cvCurrentIdentifier st1) (cvCurrentArgs st1) 0 st1).1

/-- `CodeConverter._findNextLabel` for one stack frame: note that the
TypeScript builds the base from the frame's identifier and the comma-joined
*keys* of the frame's argument map with no separating dash, and that a
missing counter yields JavaScript's `NaN` in the label rather than a crash. -/
def cvFindNextLabel (identifier : String) (argMap : JsMap) (idxMap : JsMapNat) : String :=
  let moduleLabel := identifier ++ String.intercalate "," (jsKeys argMap)
  match jsGetNat idxMap moduleLabel with
  | some i => moduleLabel ++ "-" ++ toString (i + 1)
  | none => moduleLabel ++ "-NaN"

/-- The frame walk of `CodeConverter._incrementIndexAndFindNextState`: from
the innermost frame outward, the first frame whose index is not at the final
block supplies the next label. -/
def cvFindNextStateWalk :
    List (List NormalBlockContext) → List Nat → List String → List JsMap →
    JsMapNat → Option String
  | bs :: restB, j :: restJ, id :: restId, m :: restM, idxMap =>
      if j + 1 < bs.length then some (cvFindNextLabel id m idxMap)
      else cvFindNextStateWalk restB restJ restId restM idxMap
  | _, _, _, _, _ => none

/-- `CodeConverter._incrementIndexAndFindNextState`. -/
def cvIncrementIndexAndFindNextState (st : ConvState) : Option String :=
  cvFindNextStateWalk st.blocksStack st.indexStack st.identifierStack
    st.argMapStack st.identifierIndexMap

/-- The pointwise comparison loop of `CodeConverter._isModuleConstructed`:
a stored argument tuple matches when each of its entries equals the
corresponding entry of the requested tuple (a requested tuple shorter than
the stored one never matches). -/
def argsMatch : List String → List String → Bool
  | [], _ => true
  | _ :: _, [] => false
  | x :: xs, y :: ys => x == y && argsMatch xs ys

/-- `CodeConverter._isModuleConstructed`. -/
def cvIsModuleConstructed (identifier : String) (args : List String)
    (st : ConvState) : Bool :=
  (match cmGet st.constructedModules identifier with
   | some l => l
   | none => []).any fun constructedArgs => argsMatch constructedArgs args

/-- `CodeConverter._generateAndPushArgumentMap`: builds the binding map with
`argumentMap.set(params[i], args[i])` for each index (the key is the
parameter name) and pushes it. -/
def cvGenerateAndPushArgumentMap (params args : List String)
    (st : ConvState) : ConvState :=
  let m := (List.range args.length).foldl
    (fun acc i => jsSet acc (params.getD i "undefined") (args.getD i "")) []
  { st with argMapStack := m :: st.argMapStack }

/-- Records a module invocation in `_constructedModules` (the body of
`visitModule` lines 405–407). -/
def cvConstructedAdd (identifier : String) (args : List String)
    (st : ConvState) : ConvState :=
  let cur := match cmGet st.constructedModules identifier with
    | some l => l
    | none => []
  { st with constructedModules := cmSet st.constructedModules identifier (cur ++ [args]) }

/-- `CodeConverter.visitGoTo`'s returned label: `identifier-0`, with the
comma-joined arguments infixed when the argument tuple is nonempty. -/
def cvGotoLabel (cmd : GoToContext) : String :=
  if cmd.args.isEmpty then cmd.identifier ++ "-0"
  else cmd.identifier ++ "-" ++ String.intercalate "," cmd.args ++ "-0"

/-- Adds a state to the machine being built. -/
def cvAddState (label : String) (s : TMState) (st : ConvState) : ConvState :=
  { st with tm := st.tm.addState label s }

/-- Adds a transition to a (variable) state of the machine being built. -/
def cvAddTransition (label letter : String) (change : IncompleteTMChange)
    (st : ConvState) : ConvState :=
  { st with tm := st.tm.addTransition label letter change }

/-- The call forms of the compiler's mutually recursive visit methods
(`visitGoTo`, `visitModule`, the block loop, the block/case/flow dispatches,
`visitBasicBlock`, `_getTMChangeForBasicBlock`, `_getTMChangeForSwitchCase`,
`_visitIfOrElse`, `visitSwitchBlock` and its case loop). -/
inductive CvCall where
  | goTo (cmd : GoToContext)
  | moduleVisit (m : ModuleContext)
  | blocksLoop (blocks : List NormalBlockContext)
  | blockVisit (b : NormalBlockContext)
  | basicBlock (b : BasicBlockContext)
  | changeForBasicBlock (b : BasicBlockContext)
  | flow (f : FlowChangeContext)
  | changeForSwitchCase (c : CaseContext)
  | caseVisit (c : CaseContext)
  | ifOrElse (blocks : List NormalBlockContext) (extraLabel : String)
  | switchBlock (cases : List CaseContext)
  | casesLoop (cases : List CaseContext) (label : String) (remaining : List String)

/-- The combined result of one visit call: the updated compiler state plus,
depending on the call form, a next-state label (`visitGoTo`, the flow and
case dispatches), a transition (`_getTMChange…`), or the remaining letter
set (the case loop). -/
structure CvOut where
  st : ConvState
  label : Option String
  change : Option IncompleteTMChange
  remaining : List String

/-- Wraps a state-only result. -/
def cvOutSt (st : ConvState) : CvOut :=
  { st := st, label := none, change := none, remaining := [] }

/-- Wraps a state-and-label result. -/
def cvOutLabel (st : ConvState) (label : Option String) : CvOut :=
  { st := st, label := label, change := none, remaining := [] }

/-- Wraps a state-and-change result. -/
def cvOutChange (st : ConvState) (change : IncompleteTMChange) : CvOut :=
  { st := st, label := none, change := some change, remaining := [] }

/-- One step of the compiler's visitation, with `rec` standing for the
recursive calls (each call consumes one unit of fuel; see `cvF`).  Each
`match` arm is the corresponding `CodeConverter` method. -/
def cvStepF (rec : CvCall → ConvState → Option CvOut) :
    CvCall → ConvState → Option CvOut
  -- `visitGoTo`: if the target invocation is not yet constructed, build the
  -- argument map and visit the target module; return the target's label.
  | .goTo cmd, st =>
      match st.idToModule.lookup cmd.identifier with
      | none => none
      | some m =>
          if cvIsModuleConstructed m.identifier cmd.args st then
            some (cvOutLabel st (some (cvGotoLabel cmd)))
          else
            match rec (.moduleVisit m) (cvGenerateAndPushArgumentMap m.params cmd.args st) with
            | some o => some (cvOutLabel o.st (some (cvGotoLabel cmd)))
            | none => none
  -- `visitModule`: generate the invocation's first label, push the module
  -- frame, record it as constructed, lower the body blocks, and pop.
  | .moduleVisit m, st =>
      let st1 := (cvGenerateNextLabel m.identifier (cvCurrentArgs st) 0 st).1
      let st2 := cvPushBlocks st1 m.blocks m.identifier true
      let st3 := cvConstructedAdd m.identifier (cvCurrentArgs st2) st2
      match rec (.blocksLoop m.blocks) st3 with
      | some o => some (cvOutSt (cvPopBlocks o.st))
      | none => none
  -- The block loop of `visitModule`/`_visitIfOrElse`: visit, then
  -- `_incrementIndex`, and continue.
  | .blocksLoop [], st => some (cvOutSt st)
  | .blocksLoop (b :: rest), st =>
      match rec (.blockVisit b) st with
      | some o => rec (.blocksLoop rest) (cvIncrementIndex o.st)
      | none => none
  -- The `visit` dispatch on a block.
  | .blockVisit (.basic b), st => rec (.basicBlock b) st
  | .blockVisit (.switch cases), st => rec (.switchBlock cases) st
  -- `visitBasicBlock`: compute the block's change and add a constant state
  -- under the current label.
  | .basicBlock b, st =>
      match rec (.changeForBasicBlock b) st with
      | some o =>
          match o.change with
          | some change =>
              match cvGetCurrentLabel true o.st with
              | some label => some (cvOutSt (cvAddState label (TMState.constant change) o.st))
              | none => none
          | none => none
      | none => none
  -- `_getTMChangeForBasicBlock`: direction and (resolved) write-letter from
  -- the block's commands; the next state from the flow command if present,
  -- else from the fallthrough search, else "reject".
  | .changeForBasicBlock b, st =>
      let direction := b.moveCommand.map MoveContext.direction
      let next : Option (ConvState × String) :=
        match b.flowCommand with
        | some f =>
            match rec (.flow f) st with
            | some o => some (o.st, o.label.getD "")
            | none => none
        | none => some (st,
            match cvIncrementIndexAndFindNextState st with
            | some l => l
            | none => "reject")
      match next with
      | some r =>
          let letter := b.changeToCommand.map fun c =>
            getNextValue (cvCurrentArgumentMap r.1) c.value
          some (cvOutChange r.1 { nextState := r.2, letter := letter, direction := direction })
      | none => none
  -- The `visit` dispatch on a flow command (`visitGoTo`/`visitTermination`).
  | .flow (.goTo cmd), st => rec (.goTo cmd) st
  | .flow (.termination ts), st => some (cvOutLabel st (some ts.label))
  -- `_getTMChangeForSwitchCase`: a basic first block with a flow command
  -- supplies the next state; otherwise visiting the case does (falling back
  -- to the fallthrough search and "reject").
  | .changeForSwitchCase c, st =>
      match c.firstBlock with
      | none => none
      | some fb =>
          let direction := (match fb with
            | Sum.inl b => b.moveCommand
            | Sum.inr cb => cb.moveCommand).map MoveContext.direction
          let hasBasicFlow : Option FlowChangeContext :=
            match fb with
            | Sum.inl b => b.flowCommand
            | Sum.inr _ => none
          let next : Option (ConvState × String) :=
            match hasBasicFlow with
            | some f =>
                match rec (.flow f) st with
                | some o => some (o.st, o.label.getD "")
                | none => none
            | none =>
                match rec (.caseVisit c) st with
                | some o => some (o.st,
                    match o.label with
                    | some l => l
                    | none =>
                        match cvIncrementIndexAndFindNextState o.st with
                        | some l => l
                        | none => "reject")
                | none => none
          match next with
          | some r =>
              let letter := (match fb with
                | Sum.inl b => b.changeToCommand
                | Sum.inr cb => cb.changeToCommand).map fun (cc : ChangeToContext) =>
                  getNextValue (cvCurrentArgumentMap r.1) cc.value
              some (cvOutChange r.1 { nextState := r.2, letter := letter, direction := direction })
          | none => none
  -- The `visit` dispatch on a case (`visitIf`/`visitElse`/`visitWhile`).
  | .caseVisit (.ifCase values blocks), st =>
      rec (.ifOrElse blocks
        (String.intercalate "," (values.map fun v => if v == "" then "blank" else v))) st
  | .caseVisit (.elseCase blocks), st => rec (.ifOrElse blocks "else") st
  | .caseVisit (.whileCase _ _), st =>
      match cvGetCurrentLabel true st with
      | some l => some (cvOutLabel st (some l))
      | none => none
  -- `_visitIfOrElse`: with more than one block, generate a fresh
  -- sub-sequence label (counter starting at 1), push a non-module frame,
  -- lower the blocks after the first, pop, and return the new label.
  | .ifOrElse blocks extraLabel, st =>
      if blocks.length > 1 then
        match cvGetCurrentLabel false st with
        | none => none
        | some cur =>
            let newIdentifier := cur ++ "-" ++ extraLabel
            let gen := cvGenerateNextLabel newIdentifier (cvCurrentArgs st) 1 st
            let st1 := cvPushBlocks gen.1 blocks newIdentifier false
            match rec (.blocksLoop blocks.tail) st1 with
            | some o => some (cvOutLabel (cvPopBlocks o.st) (some gen.2))
            | none => none
      else some (cvOutLabel st none)
  -- `visitSwitchBlock`: add a variable state under the current label, then
  -- bind each case's change to the letters it covers.
  | .switchBlock cases, st =>
      match cvGetCurrentLabel true st with
      | none => none
      | some label =>
          let st1 := cvAddState label (TMState.variable []) st
          let remaining := setAdd st1.alphabet ""
          match rec (.casesLoop cases label remaining) st1 with
          | some o => some (cvOutSt o.st)
          | none => none
  -- The case loop of `visitSwitchBlock`.
  | .casesLoop [] _ remaining, st =>
      some { st := st, label := none, change := none, remaining := remaining }
  | .casesLoop (c :: rest) label remaining, st =>
      match rec (.changeForSwitchCase c) st with
      | none => none
      | some o =>
          match o.change with
          | none => none
          | some change =>
              match c with
              | .elseCase _ =>
                  let st2 := remaining.foldl
                    (fun acc letter => cvAddTransition label letter change acc) o.st
                  rec (.casesLoop rest label remaining) st2
              | .ifCase values _ =>
                  let m := cvCurrentArgumentMap o.st
                  let rr := values.foldl
                    (fun (acc : ConvState × List String) v =>
                      let letter := getNextValue m v
                      (cvAddTransition label letter change acc.1, acc.2.erase letter))
                    (o.st, remaining)
                  rec (.casesLoop rest label rr.2) rr.1
              | .whileCase values _ =>
                  let m := cvCurrentArgumentMap o.st
                  let rr := values.foldl
                    (fun (acc : ConvState × List String) v =>
                      let letter := getNextValue m v
                      (cvAddTransition label letter change acc.1, acc.2.erase letter))
                    (o.st, remaining)
                  rec (.casesLoop rest label rr.2) rr.1

/-- The fueled compiler visitation: `Nat.rec` over the fuel, one unit per
call; zero fuel is exhaustion (`none`). -/
def cvF : Nat → CvCall → ConvState → Option CvOut :=
  Nat.rec (fun _ _ => none) (fun _ ih => cvStepF ih)

/-- Unfolding lemma: at successor fuel, one step runs with the recursive
calls at the predecessor fuel. -/
theorem cvF_succ (n : Nat) : cvF (n + 1) = cvStepF (cvF n) := rfl

/-- Unfolding lemma: zero fuel yields `none`. -/
theorem cvF_zero (c : CvCall) (st : ConvState) : cvF 0 c st = none := rfl

/-- `CodeConverter.visitGoTo`, as a typed view of `cvF`. -/
def cvVisitGoTo (fuel : Nat) (cmd : GoToContext) (st : ConvState) :
    Option (ConvState × String) :=
  (cvF fuel (.goTo cmd) st).map fun o => (o.st, o.label.getD "")

/-- `CodeConverter.visitModule`, as a typed view of `cvF`. -/
def cvVisitModule (fuel : Nat) (m : ModuleContext) (st : ConvState) :
    Option ConvState :=
  (cvF fuel (.moduleVisit m) st).map CvOut.st

/-- `CodeConverter._getTMChangeForBasicBlock`, as a typed view of `cvF`. -/
def cvGetTMChangeForBasicBlock (fuel : Nat) (b : BasicBlockContext)
    (st : ConvState) : Option (ConvState × IncompleteTMChange) :=
  (cvF fuel (.changeForBasicBlock b) st).bind fun o =>
    o.change.map fun ch => (o.st, ch)

/-- `CodeConverter._getTMChangeForSwitchCase`, as a typed view of `cvF`. -/
def cvGetTMChangeForSwitchCase (fuel : Nat) (c : CaseContext)
    (st : ConvState) : Option (ConvState × IncompleteTMChange) :=
  (cvF fuel (.changeForSwitchCase c) st).bind fun o =>
    o.change.map fun ch => (o.st, ch)

/-- `CodeConverter._visitIfOrElse`, as a typed view of `cvF`. -/
def cvVisitIfOrElse (fuel : Nat) (blocks : List NormalBlockContext)
    (extraLabel : String) (st : ConvState) : Option (ConvState × Option String) :=
  (cvF fuel (.ifOrElse blocks extraLabel) st).map fun o => (o.st, o.label)

/-- `CodeConverter.visitSwitchBlock`, as a typed view of `cvF`. -/
def cvVisitSwitchBlock (fuel : Nat) (cases : List CaseContext)
    (st : ConvState) : Option ConvState :=
  (cvF fuel (.switchBlock cases) st).map CvOut.st


/-- `CodeConverter.visitProgram`: sets the initial state to the entry
module's `identifier-0` label, fills `_idToModule`, pushes the empty argument
map and visits the entry module. -/
def cvVisitProgram : Nat → ProgramContext → ConvState → Option ConvState
  | 0, _, _ => none
  | fuel + 1, p, st =>
      match p.modules with
      | [] => none
      | m0 :: _ =>
          let tm1 := { st.tm with initialState := m0.identifier ++ "-0" }
          let idMap := p.modules.foldl (fun acc m => mmSet acc m.identifier m) st.idToModule
          let st1 := { st with tm := tm1, idToModule := idMap,
                               argMapStack := [] :: st.argMapStack }
          cvVisitModule fuel m0 st1

/-- The `CodeConverter` constructor's initial state for a program. -/
def cvInitState (p : ProgramContext) : ConvState :=
  { tm := { initialState := "", states := [] },
    alphabet := mkSet p.alphabet.values,
    blocksStack := [], indexStack := [], argMapStack := [],
    identifierStack := [], idToModule := [], constructedModules := [],
    identifierIndexMap := [] }

/-- `CodeConverter.convert`: visit the program and return the machine. -/
def cvConvert (fuel : Nat) (p : ProgramContext) : Option TuringMachine :=
  (cvVisitProgram fuel p (cvInitState p)).map ConvState.tm

/-! ## The validator of `src/CodeValidator.ts` (strict duplicate detection)

Validation failures are `Except.error` carrying the error message (the
source span of a `CodeError` is not modelled).  Visiting dispatches a
`CoreBasicBlockContext` to `visitCoreBasicBlock` (so, as in the source, a
while body's changeto is not itself validated).  The visitor context carries
the alphabet set, the module-name/arity map, and the current module's
parameter set. -/

/-- The validator's context: alphabet set, module arities, parameter set. -/
structure VdCtx where
  alphabet : List String
  moduleNames : List (String × Nat)
  parameters : List String

/-- `CodeValidator.visitChangeTo` (identical in both validator variants). -/
def vdVisitChangeTo (ctx : VdCtx) (c : ChangeToContext) : Except String Bool :=
  if c.value != "" && !ctx.alphabet.contains c.value then
    .error ("The letter \"" ++ c.value ++ "\" is not part of the alphabet.")
  else .ok true

/-- `CodeValidator.visitGoTo` of `src/CodeValidator.ts`. -/
def vdVisitGoTo (ctx : VdCtx) (g : GoToContext) : Except String Bool :=
  match ctx.moduleNames.lookup g.identifier with
  | none => .error ("Undefined module \"" ++ g.identifier ++ "\".")
  | some paramCount =>
      if g.args.length != paramCount then
        .error ("Expected " ++ toString paramCount ++ " number of arguments.")
      else .ok true

/-- `CodeValidator.visitBasicBlock` of `src/CodeValidator.ts`: visits the
changeto and flow commands and reports whether a flow command is present. -/
def vdVisitBasicBlock (ctx : VdCtx) (b : BasicBlockContext) : Except String Bool := do
  match b.changeToCommand with
  | some c => _ ← vdVisitChangeTo ctx c
  | none => pure ()
  match b.flowCommand with
  | some (.goTo g) => _ ← vdVisitGoTo ctx g
  | some (.termination _) => pure ()
  | none => pure ()
  return b.flowCommand.isSome

/-- The display form of a trigger value (`letter || "blank"`). -/
def displayLetter (letter : String) : String :=
  if letter == "" then "blank" else letter

/-- The message of the missing-coverage error of a switch block. -/
def vdMissingMessage (missing : List String) : String :=
  let missingLetters := missing.map fun val =>
    if val.length == 0 then "blank" else "\"" ++ val ++ "\""
  let letter := if missingLetters.length == 1 then "letter" else "letters"
  "The switch block doesn't have a case for the " ++ letter ++ ": " ++
    String.intercalate ", " missingLetters ++ "."

/-- The message of the duplicate-coverage error of `src/CodeValidator.ts`. -/
def vdDuplicateMessage (letter : String) : String :=
  "Multiple cases present for letter \"" ++ displayLetter letter ++ "\"."

/-- The letter loop of `visitSwitchBlock` in `src/CodeValidator.ts`: checks
each trigger value against the alphabet, then deletes it from the remaining
set, raising the duplicate error when it was already deleted. -/
def vdSwitchLetters (ctx : VdCtx) : List String → List String →
    Except String (List String)
  | [], s => .ok s
  | letter :: rest, s =>
      let l := displayLetter letter
      if letter != "" && !ctx.alphabet.contains l then
        .error ("The letter \"" ++ l ++ "\" is not part of the alphabet.")
      else
        let d := setDelete s letter
        if !d.1 then .error (vdDuplicateMessage letter)
        else vdSwitchLetters ctx rest d.2

mutual
/-- `CodeValidator._validateBlocks` of `src/CodeValidator.ts` (the loop over
a block sequence, with the has-flow/has-switch flags and the first-block-of-
an-if-case check). -/
def vdValidateBlocksLoop (ctx : VdCtx) (isIfBlock : Bool) :
    List NormalBlockContext → Bool → Bool → Bool → Except String Bool
  | [], _, hasFlow, _ => .ok hasFlow
  | b :: rest, isFirst, hasFlow, hasSwitch => do
      if hasSwitch then
        throw "A non-final block in a sequence of blocks cannot be a switch block."
      if hasFlow then
        throw "A non-final block in a sequence of blocks cannot have a flow command."
      let isSwitch := match b with
        | .switch _ => true
        | .basic _ => false
      if isSwitch && isIfBlock && isFirst then
        throw "The first block within an if case cannot be a switch block."
      let f ← vdVisitBlock ctx b
      vdValidateBlocksLoop ctx isIfBlock rest false (hasFlow || f) (hasSwitch || isSwitch)
termination_by l _ _ _ => (sizeOf l, 0)

/-- The `visit` dispatch on a block in `src/CodeValidator.ts`. -/
def vdVisitBlock (ctx : VdCtx) : NormalBlockContext → Except String Bool
  | .basic b => vdVisitBasicBlock ctx b
  | .switch cases => vdVisitSwitchBlock ctx cases
termination_by b => (sizeOf b, 0)

/-- `CodeValidator.visitSwitchBlock` of `src/CodeValidator.ts`: the remaining
set starts as alphabet ∪ {blank} ∪ parameters; each case's trigger values are
checked and deleted (a failed delete raises the duplicate error); with no
else case, a nonempty remaining set raises the missing-coverage error. -/
def vdVisitSwitchBlock (ctx : VdCtx) (cases : List CaseContext) : Except String Bool := do
  let alphabetSet := ctx.parameters.foldl setAdd (setAdd ctx.alphabet "")
  let r ← vdSwitchCasesLoop ctx cases alphabetSet false false
  if !r.2.2 && r.1.length != 0 then
    throw (vdMissingMessage r.1)
  return r.2.1
termination_by (sizeOf cases, 1)

/-- The case loop of `visitSwitchBlock` in `src/CodeValidator.ts`; the result
is the remaining letter set, the has-flow flag and the seen-else flag. -/
def vdSwitchCasesLoop (ctx : VdCtx) : List CaseContext → List String → Bool →
    Bool → Except String (List String × Bool × Bool)
  | [], s, hasFlow, seenElse => .ok (s, hasFlow, seenElse)
  | .elseCase blocks :: rest, s, hasFlow, _ => do
      if !rest.isEmpty then
        throw "A non-final case cannot be an else block"
      let f ← vdVisitCase ctx (.elseCase blocks)
      vdSwitchCasesLoop ctx rest s (hasFlow || f) true
  | .ifCase values blocks :: rest, s, hasFlow, seenElse => do
      let s1 ← vdSwitchLetters ctx values s
      let f ← vdVisitCase ctx (.ifCase values blocks)
      vdSwitchCasesLoop ctx rest s1 (hasFlow || f) seenElse
  | .whileCase values cb :: rest, s, hasFlow, seenElse => do
      let s1 ← vdSwitchLetters ctx values s
      let f ← vdVisitCase ctx (.whileCase values cb)
      vdSwitchCasesLoop ctx rest s1 (hasFlow || f) seenElse
termination_by l _ _ _ => (sizeOf l, 0)

/-- The `visit` dispatch on a case in `src/CodeValidator.ts` (`visitIf`,
`visitElse`, `visitWhile`). -/
def vdVisitCase (ctx : VdCtx) : CaseContext → Except String Bool
  | .ifCase _ blocks => vdValidateBlocksLoop ctx true blocks true false false
  | .elseCase blocks => vdValidateBlocksLoop ctx true blocks true false false
  | .whileCase _ _ => .ok false
termination_by c => (sizeOf c, 0)
end

/-! ## The validator variant embedded in `CodeParserErrors.spec.ts`
(parameter-aware coverage: the Else-required variant, which the spec's §9
designates as canonical and which the repository's `CodeValidator.spec.ts`
test suite asserts). -/

/-- The must-have-an-else-case message of the variant validator. -/
def vvMustElseMessage : String :=
  "If parametrised letters are used then the switch block must have an else case."

/-- `visitGoTo` of the variant validator (singular/plural in the message). -/
def vvVisitGoTo (ctx : VdCtx) (g : GoToContext) : Except String Unit :=
  match ctx.moduleNames.lookup g.identifier with
  | none => .error ("Undefined module \"" ++ g.identifier ++ "\".")
  | some paramCount =>
      if g.args.length != paramCount then
        let argument := if paramCount == 1 then "argument" else "arguments"
        .error ("Expected " ++ toString paramCount ++ " " ++ argument ++ ".")
      else .ok ()

/-- `visitBasicBlock` of the variant validator: `maybeVisit` of the changeto,
flow and move commands. -/
def vvVisitBasicBlock (ctx : VdCtx) (b : BasicBlockContext) : Except String Unit := do
  match b.changeToCommand with
  | some c => _ ← vdVisitChangeTo ctx c
  | none => pure ()
  match b.flowCommand with
  | some (.goTo g) => vvVisitGoTo ctx g
  | some (.termination _) => pure ()
  | none => pure ()

/-- The letter loop of the variant `visitSwitchBlock`: a parameter trigger
sets the seen-parameter flag, a non-parameter trigger must be blank or in the
alphabet, and every trigger is deleted from the remaining set (with no
duplicate check).  Returns the remaining set and the flag. -/
def vvSwitchLetters (ctx : VdCtx) : List String → List String → Bool →
    Except String (List String × Bool)
  | [], s, seenParam => .ok (s, seenParam)
  | letter :: rest, s, seenParam =>
      let l := displayLetter letter
      if ctx.parameters.contains letter then
        vvSwitchLetters ctx rest (s.erase letter) true
      else if letter != "" && !ctx.alphabet.contains l then
        .error ("The letter \"" ++ l ++ "\" is not part of the alphabet.")
      else
        vvSwitchLetters ctx rest (s.erase letter) seenParam

/-- The first loop of the variant `visitSwitchBlock` over the cases; the
result is the remaining set, the seen-else flag and the seen-parameter flag. -/
def vvSwitchCollect (ctx : VdCtx) : List CaseContext → List String → Bool →
    Bool → Except String (List String × Bool × Bool)
  | [], s, seenElse, seenParam => .ok (s, seenElse, seenParam)
  | c :: rest, s, seenElse, seenParam =>
      match c with
      | .elseCase _ =>
          if !rest.isEmpty then
            .error "A non-final case cannot be an else block"
          else vvSwitchCollect ctx rest s true seenParam
      | .ifCase values _ => do
          let r ← vvSwitchLetters ctx values s seenParam
          vvSwitchCollect ctx rest r.1 seenElse r.2
      | .whileCase values _ => do
          let r ← vvSwitchLetters ctx values s seenParam
          vvSwitchCollect ctx rest r.1 seenElse r.2

mutual
/-- `visitAll` of the variant validator, over blocks. -/
def vvVisitAllBlocks (ctx : VdCtx) : List NormalBlockContext → Except String Unit
  | [] => .ok ()
  | b :: rest => do
      vvVisitBlock ctx b
      vvVisitAllBlocks ctx rest
termination_by l => (sizeOf l, 0)

/-- The `visit` dispatch on a block in the variant validator. -/
def vvVisitBlock (ctx : VdCtx) : NormalBlockContext → Except String Unit
  | .basic b => vvVisitBasicBlock ctx b
  | .switch cases => vvVisitSwitchBlock ctx cases
termination_by b => (sizeOf b, 0)

/-- `visitSwitchBlock` of the variant validator: collects the remaining set,
the seen-else and seen-parameter flags (raising on a non-final else or an
unknown letter), visits all the cases, and then raises the must-have-else
error when a parameter trigger was seen without an else case, or the
missing-coverage error when, with no else, the remaining set has more
entries than the parameter set. -/
def vvVisitSwitchBlock (ctx : VdCtx) (cases : List CaseContext) : Except String Unit := do
  let alphabetSet := ctx.parameters.foldl setAdd (setAdd ctx.alphabet "")
  let r ← vvSwitchCollect ctx cases alphabetSet false false
  vvVisitAllCases ctx cases
  if r.2.2 && !r.2.1 then
    throw vvMustElseMessage
  else if !r.2.1 && r.1.length != ctx.parameters.length then
    let missing := r.1.filter fun val => !ctx.parameters.contains val
    throw (vdMissingMessage missing)
  else
    return ()
termination_by (sizeOf cases, 1)

/-- `visitAll` of the variant validator, over cases. -/
def vvVisitAllCases (ctx : VdCtx) : List CaseContext → Except String Unit
  | [] => .ok ()
  | c :: rest => do
      vvVisitCase ctx c
      vvVisitAllCases ctx rest
termination_by l => (sizeOf l, 0)

/-- The `visit` dispatch on a case in the variant validator (`visitIf`,
`visitElse`, `visitWhile`). -/
def vvVisitCase (ctx : VdCtx) : CaseContext → Except String Unit
  | .ifCase values blocks => do
      if values.isEmpty then
        throw "An if case must apply to at least one letter."
      match blocks with
      | .basic b :: rest => vvVisitAllBlocks ctx (.basic b :: rest)
      | _ => throw "The first block within an if case must be a basic block."
  | .elseCase blocks =>
      match blocks with
      | .basic b :: rest => vvVisitAllBlocks ctx (.basic b :: rest)
      | _ => throw "The first block within an else case must be a basic block."
  | .whileCase values _ =>
      if values.isEmpty then
        throw "A while case must apply to at least one letter."
      else .ok ()
termination_by c => (sizeOf c, 0)
end

/-- `_addModuleNames` of the variant validator: raises on a duplicate module
identifier, else records each identifier's parameter count. -/
def vvAddModuleNames : List ModuleContext → List (String × Nat) →
    Except String (List (String × Nat))
  | [], acc => .ok acc
  | m :: rest, acc =>
      if (acc.lookup m.identifier).isSome then
        .error ("Duplicate module with name \"" ++ m.identifier ++ "\".")
      else vvAddModuleNames rest (acc ++ [(m.identifier, m.params.length)])

/-- `visitModule` of the variant validator: parameter/alphabet disjointness,
then all body blocks. -/
def vvVisitModule (alphabet : List String) (moduleNames : List (String × Nat))
    (m : ModuleContext) : Except String Unit := do
  let ctx : VdCtx := { alphabet := alphabet, moduleNames := moduleNames,
                       parameters := mkSet m.params }
  match m.params.find? (fun letter => alphabet.contains letter) with
  | some letter =>
      throw ("The letter \"" ++ letter ++ "\" is both in the alphabet and a module parameter.")
  | none => pure ()
  vvVisitAllBlocks ctx m.blocks

/-- `visitAll` of the variant validator, over modules. -/
def vvVisitAllModules (alphabet : List String) (moduleNames : List (String × Nat)) :
    List ModuleContext → Except String Unit
  | [] => .ok ()
  | m :: rest => do
      vvVisitModule alphabet moduleNames m
      vvVisitAllModules alphabet moduleNames rest

/-- `visitProgram`/`validate` of the variant validator: alphabet nonempty,
no duplicate modules, at least one module, parameterless first module, then
every module. -/
def vvValidate (p : ProgramContext) : Except String Unit := do
  if p.alphabet.values.isEmpty then
    throw "The alphabet must have at least one letter."
  let alphabet := mkSet p.alphabet.values
  let moduleNames ← vvAddModuleNames p.modules []
  match p.modules with
  | [] => throw "A program should have at least one module."
  | m0 :: _ =>
      if !m0.params.isEmpty then
        throw "The first module cannot have parameters."
      vvVisitAllModules alphabet moduleNames p.modules

/-- The trigger values of a case (an else case has none). -/
def caseTriggerValues : CaseContext → List String
  | .ifCase values _ => values
  | .whileCase values _ => values
  | .elseCase _ => []

/-- Whether a case is an else case. -/
def isElseCase : CaseContext → Bool
  | .elseCase _ => true
  | _ => false

/-- Whether some trigger value of some case of the switch block is a bound
module parameter. -/
def anyParamTrigger (ctx : VdCtx) (cases : List CaseContext) : Bool :=
  cases.any fun c => (caseTriggerValues c).any fun v => ctx.parameters.contains v

/-! ## The parser's controlled token advance (`CodeParser.ts`)

`_moveNext` is modelled as a function of its observable inputs: the
indentation-stack length before the advance, the indentation stack after the
advance (top at the head; the `CodeWrapper` maintains it), whether the
wrapper ran out of tokens, and the three mode flags.  The result is the
raised error message, if any. -/

/-- The top of the indentation stack (`stack[stack.length-1]`); the lexer's
stack is never empty. -/
def indentTop : List Int → Int
  | v :: _ => v
  | [] => 0

/-- `CodeParser._moveNext`: the `-1` malformed-dedent sentinel raises
"Invalid indentation."; an unrequested stack shrink raises "Unexpected
de-indentation."; an unrequested stack growth raises "Unexpected
indentation."; reaching the end of the tokens raises "Unexpected end of
file." when `shouldThrow` is set. -/
def pMoveNext (deIndentAllowed indentAllowed shouldThrow : Bool)
    (prevStackLength : Nat) (newStack : List Int) (reachedEnd : Bool) :
    Option String :=
  if indentTop newStack == -1 then some "Invalid indentation."
  else if !deIndentAllowed && newStack.length < prevStackLength then
    some "Unexpected de-indentation."
  else if !indentAllowed && newStack.length > prevStackLength then
    some "Unexpected indentation."
  else if reachedEnd && shouldThrow then some "Unexpected end of file."
  else none

/-- `CodeParser._matchIndent`: a controlled advance with only an indent
allowed; if it raises nothing but the stack did not grow by exactly one
level (or grew by the `-1` sentinel), "Expected indentation." is raised. -/
def pMatchIndent (prevStackLength : Nat) (newStack : List Int)
    (reachedEnd : Bool) : Option String :=
  match pMoveNext false true true prevStackLength newStack reachedEnd with
  | some e => some e
  | none =>
      if (prevStackLength : Int) != (newStack.length : Int) - 1
          || indentTop newStack == -1 then
        some "Expected indentation."
      else none

/-! ## Well-formedness and an invariant for the interpreter (claim C10) -/

/-- Whether a case body starts with a basic block. -/
def headIsBasic : List NormalBlockContext → Bool
  | .basic _ :: _ => true
  | _ => false

mutual
/-- Every block of the list is good (see `goodBlock`). -/
def goodBlockList : List NormalBlockContext → Bool
  | [] => true
  | b :: rest => goodBlock b && goodBlockList rest

/-- A block is good when every if/else case body anywhere inside it starts
with a basic block (hence is nonempty) and is itself good. -/
def goodBlock : NormalBlockContext → Bool
  | .basic _ => true
  | .switch cases => goodCaseList cases

/-- Every case of the list is good. -/
def goodCaseList : List CaseContext → Bool
  | [] => true
  | c :: rest => goodCase c && goodCaseList rest

/-- A case is good when its body starts with a basic block and is good. -/
def goodCase : CaseContext → Bool
  | .ifCase _ blocks => headIsBasic blocks && goodBlockList blocks
  | .elseCase blocks => headIsBasic blocks && goodBlockList blocks
  | .whileCase _ _ => true
end

/-- Structural well-formedness of a program, as established by the parser and
validator: at least one module, and every module has a nonempty good body. -/
def execWF (p : ProgramContext) : Bool :=
  !p.modules.isEmpty &&
    p.modules.all fun m => !m.blocks.isEmpty && goodBlockList m.blocks

/-- A stack frame is coherent: the index is in range and the blocks are good. -/
def frameOK (bs : List NormalBlockContext) (i : Nat) : Bool :=
  decide (i < bs.length) && goodBlockList bs

/-- The interpreter-state invariant: while the status is unset, the three
frame stacks are nonempty, parallel, and every frame is coherent. -/
def execInv (s : ExecState) : Bool :=
  match s.terminationStatus with
  | some _ => true
  | none =>
      !s.currentBlocksStack.isEmpty &&
      s.currentBlocksStack.length == s.currentBlockIndexStack.length &&
      s.currentBlocksStack.length == s.topLevelModuleStack.length &&
      (List.zip s.currentBlocksStack s.currentBlockIndexStack).all
        fun bi => frameOK bi.1 bi.2

/-- The states reachable from a given interpreter state by repeated calls to
`execute`. -/
inductive ExecReach (p : ProgramContext) : ExecState → ExecState → Prop
  | refl (s : ExecState) : ExecReach p s s
  | step (s1 s2 s3 : ExecState) (b : Bool) :
      ExecReach p s1 s2 → execute p s2 = some (b, s3) → ExecReach p s1 s3

/-! ## Concrete programs used by the claims -/

/-- The program of spec §8 Example 1:
`alphabet = [a, b]` / `module m():` / `changeto blank` / `move right`. -/
def progExample1 : ProgramContext :=
  { alphabet := { values := ["a", "b"] },
    modules := [
      { identifier := "m", params := [],
        blocks := [.basic { changeToCommand := some { value := "" },
                            moveCommand := some { direction := .right },
                            flowCommand := none }] }] }

/-- A one-module program whose single block has neither a changeto nor a move
command, only `goto m()` (exercising the write/direction defaults):
`alphabet = [a]` / `module m():` / `goto m()`. -/
def progDefaults : ProgramContext :=
  { alphabet := { values := ["a"] },
    modules := [
      { identifier := "m", params := [],
        blocks := [.basic { changeToCommand := none, moveCommand := none,
                            flowCommand := some (.goTo { identifier := "m", args := [] }) }] }] }

/-- The parametrised program of claim C1's failing input:
`alphabet = [a]` /
`module main():` / `move right` / `goto b(a)` /
`module b(x):` / `if x:` / `accept` / `else:` / `reject`. -/
def progParam : ProgramContext :=
  { alphabet := { values := ["a"] },
    modules := [
      { identifier := "main", params := [],
        blocks := [.basic { changeToCommand := none,
                            moveCommand := some { direction := .right },
                            flowCommand := some (.goTo { identifier := "b", args := ["a"] }) }] },
      { identifier := "b", params := ["x"],
        blocks := [.switch [
          .ifCase ["x"] [.basic { changeToCommand := none, moveCommand := none,
                                  flowCommand := some (.termination .accept) }],
          .elseCase [.basic { changeToCommand := none, moveCommand := none,
                              flowCommand := some (.termination .reject) }]]] }] }

/-- The duplicate-parameter program of claim C2's failing input:
`alphabet = [a, b]` /
`module main():` / `goto m(a, b)` /
`module m(x, x):` / `goto m(a, b)`. -/
def progDupParam : ProgramContext :=
  { alphabet := { values := ["a", "b"] },
    modules := [
      { identifier := "main", params := [],
        blocks := [.basic { changeToCommand := none, moveCommand := none,
                            flowCommand := some (.goTo { identifier := "m", args := ["a", "b"] }) }] },
      { identifier := "m", params := ["x", "x"],
        blocks := [.basic { changeToCommand := none, moveCommand := none,
                            flowCommand := some (.goTo { identifier := "m", args := ["a", "b"] }) }] }] }

/-- The goto command `goto m(a, b)` of `progDupParam`. -/
def gotoDup : GoToContext := { identifier := "m", args := ["a", "b"] }

/-- The module `m(x, x)` of `progDupParam`. -/
def moduleDup : ModuleContext :=
  { identifier := "m", params := ["x", "x"],
    blocks := [.basic { changeToCommand := none, moveCommand := none,
                        flowCommand := some (.goTo gotoDup) }] }

/-- The body block shared by both modules of `progDupParam`
(`goto m(a, b)` and nothing else). -/
def dupBlock : BasicBlockContext :=
  { changeToCommand := none, moveCommand := none, flowCommand := some (.goTo gotoDup) }

/-- The state after `visitGoTo` on `goto m(a, b)` builds and pushes the
argument map for `m(x, x)` (the duplicate key collapses it to `[(x, b)]`). -/
def c2ArgPush (st : ConvState) : ConvState :=
  cvGenerateAndPushArgumentMap moduleDup.params gotoDup.args st

/-- The state built by `visitModule` before lowering the body blocks: first
label, pushed module frame, and the invocation recorded in
`_constructedModules` under the *current argument values*. -/
def c2ModBodyOf (m : ModuleContext) (st : ConvState) : ConvState :=
  let st1 := (cvGenerateNextLabel m.identifier (cvCurrentArgs st) 0 st).1
  let st2 := cvPushBlocks st1 m.blocks m.identifier true
  cvConstructedAdd m.identifier (cvCurrentArgs st2) st2

/-- The entry module of `progDupParam`. -/
def c2MainModule : ModuleContext :=
  { identifier := "main", params := [], blocks := [.basic dupBlock] }

/-- The compiler state in which `visitProgram` visits the entry module of
`progDupParam`. -/
def c2StartState : ConvState :=
  { tm := { initialState := "main-0", states := [] },
    alphabet := ["a", "b"],
    blocksStack := [], indexStack := [], argMapStack := [[]],
    identifierStack := [],
    idToModule := [("main", c2MainModule), ("m", moduleDup)],
    constructedModules := [], identifierIndexMap := [] }

/-- The sub-sequence program of claim C7:
`alphabet = [a]` /
`module s():` / `move left` /
`if a:` / `move right` / `move right` / `accept` /
`else:` / `reject`. -/
def progSubSeq : ProgramContext :=
  { alphabet := { values := ["a"] },
    modules := [
      { identifier := "s", params := [],
        blocks := [
          .basic { changeToCommand := none, moveCommand := some { direction := .left },
                   flowCommand := none },
          .switch [
            .ifCase ["a"] [
              .basic { changeToCommand := none, moveCommand := some { direction := .right },
                       flowCommand := none },
              .basic { changeToCommand := none, moveCommand := some { direction := .right },
                       flowCommand := none },
              .basic { changeToCommand := none, moveCommand := none,
                       flowCommand := some (.termination .accept) }],
            .elseCase [.basic { changeToCommand := none, moveCommand := none,
                                flowCommand := some (.termination .reject) }]]] }] }

/-- The while program of claim C6's witness:
`alphabet = [a]` /
`module w():` / `while a:` / `changeto a` / `move right` /
`else:` / `accept`. -/
def progWhile : ProgramContext :=
  { alphabet := { values := ["a"] },
    modules := [
      { identifier := "w", params := [],
        blocks := [.switch [
          .whileCase ["a"] { changeToCommand := some { value := "a" },
                             moveCommand := some { direction := .right } },
          .elseCase [.basic { changeToCommand := none, moveCommand := none,
                              flowCommand := some (.termination .accept) }]]] }] }

/-- A minimal terminating program for claim C10's witness:
`alphabet = [a]` / `module t():` / `accept`. -/
def progTiny : ProgramContext :=
  { alphabet := { values := ["a"] },
    modules := [
      { identifier := "t", params := [],
        blocks := [.basic { changeToCommand := none, moveCommand := none,
                            flowCommand := some (.termination .accept) }] }] }

/-- The interpreter state `execNew "a" progTiny` starts in. -/
def c10StartState : ExecState :=
  { tape := TMTape.fromString "a", terminationStatus := none,
    currentBlocksStack := [[.basic ⟨none, none, some (.termination TerminationState.accept)⟩]],
    currentBlockIndexStack := [0], argumentMapStack := [[]], topLevelModuleStack := [true] }

/-- The interpreter state after the single (accepting) step on `progTiny`. -/
def c10TermState : ExecState :=
  { tape := execApplyBlock (TMTape.fromString "a") none none ((TMTape.fromString "a").get 0),
    terminationStatus := some TerminationState.accept,
    currentBlocksStack := [[.basic ⟨none, none, some (.termination TerminationState.accept)⟩]],
    currentBlockIndexStack := [0], argumentMapStack := [[]], topLevelModuleStack := [true] }

/-! ## The claims -/

/-- **C1**: the claim states that for every valid program and accepted
initial tape, the tree-walking interpreter and the compiled automaton
produce identical step sequences of (symbol written, head direction,
next-state-or-status).  The code violates this: on the valid parametrised
program `progParam` with initial tape `"aa"`, both runs write `a` and move
right at step 1, but at step 2 the interpreter writes `a`, moves left and
*rejects* (its inverted argument map makes the `if x:` case fail to match,
so the else case fires), while the compiled automaton writes `a`, moves
left and *accepts*. -/
theorem C1_interpreter_and_compiled_automaton_diverge :
    vvValidate progParam = Except.ok () ∧
    execValidateTapeValue progParam "aa" = true ∧
    (execNew "aa" progParam).map (fun s => execTrace progParam s 3) =
      some [("a", Direction.right, (none : Option TerminationState)),
            ("a", Direction.left, some TerminationState.reject)] ∧
    (cvConvert 20 progParam).map (fun tm =>
        tmTrace tm tm.initialState (TMTape.fromString "aa") 3) =
      some [("a", Direction.right, (none : Option TerminationState)),
            ("a", Direction.left, some TerminationState.accept)] ∧
    (execNew "aa" progParam).map (fun s => execTrace progParam s 3) ≠
      (cvConvert 20 progParam).map (fun tm =>
        tmTrace tm tm.initialState (TMTape.fromString "aa") 3) := by
  refine ⟨?_, rfl, rfl, rfl, by decide⟩
  simp [vvValidate, vvAddModuleNames, vvVisitAllModules, vvVisitModule, vvVisitAllBlocks,
    vvVisitBlock, vvVisitSwitchBlock, vvSwitchCollect, vvSwitchLetters, vvVisitAllCases,
    vvVisitCase, vvVisitBasicBlock, vvVisitGoTo, vdVisitChangeTo, mkSet, setAdd,
    progParam, displayLetter, bind, Except.bind, pure, Except.pure, List.lookup]

/-- **C3**: the claim states that resolving a GoTo pushes a binding map that
maps each *parameter name* of the target module to the corresponding
*argument value*.  `CodeExecutor._generateAndPushArgumentMap` does the
opposite (`argumentMap.set(args[i], params[i])`): for parameters `[x]` and
arguments `[a]` the pushed map is `[("a", "x")]`, keyed by the argument
value, while the compiler's same-named method builds `[("x", "a")]` as the
claim describes; and the GoTo step of `progParam` indeed pushes the
inverted map. -/
theorem C3_executor_argument_map_is_inverted :
    execGenerateAndPushArgumentMap ["x"] ["a"] [] = [[("a", "x")]] ∧
    jsGet [("a", "x")] "x" = none ∧
    jsGet [("a", "x")] "a" = some "x" ∧
    (cvGenerateAndPushArgumentMap ["x"] ["a"] (cvInitState progParam)).argMapStack =
      [[("x", "a")]] ∧
    ((execNew "aa" progParam).bind fun s =>
        (execute progParam s).map fun r => r.2.argumentMapStack) =
      some [[("a", "x")], []] :=
  ⟨rfl, rfl, rfl, rfl, rfl⟩

/-- **C7 counterexample**: the claim states that the sub-sequence lowered
for an if case's trailing blocks has sequence numbers starting at 0 and that
the case's transition targets `<base>-0`.  On `progSubSeq` the compiler
produces states `s-0`, `s-1`, `s-1-a-1`, `s-1-a-2`: the sub-sequence starts
at `-1`, the if case's transition targets `s-1-a-1`, and no state `s-1-a-0`
exists. -/
theorem C7_counterexample_subsequence_starts_at_one :
    (cvConvert 20 progSubSeq).map (fun tm => tm.states.map Prod.fst) =
      some ["s-0", "s-1", "s-1-a-1", "s-1-a-2"] ∧
    ((cvConvert 20 progSubSeq).bind fun tm => (tm.getState "s-1").bind
        fun st => (st.transitionFor "a").map IncompleteTMChange.nextState) =
      some "s-1-a-1" ∧
    ((cvConvert 20 progSubSeq).bind fun tm => tm.getState "s-1-a-0") = none :=
  ⟨rfl, rfl, rfl⟩

/-- The compiler state at the moment `_visitIfOrElse` runs for the if case
of `progSubSeq` (module frame `s`, empty argument tuple, block index 1,
label counter `s ↦ 1`). -/
def stC7 : ConvState :=
  { cvInitState progSubSeq with
      identifierStack := ["s"], argMapStack := [[]],
      blocksStack := [(progSubSeq.modules.headD
        { identifier := "", params := [], blocks := [] }).blocks],
      indexStack := [1], identifierIndexMap := [("s", 1)] }

/-- The body of the if case of `progSubSeq` (three blocks). -/
def ifBlocksC7 : List NormalBlockContext :=
  [.basic { changeToCommand := none, moveCommand := some { direction := .right },
            flowCommand := none },
   .basic { changeToCommand := none, moveCommand := some { direction := .right },
            flowCommand := none },
   .basic { changeToCommand := none, moveCommand := none,
            flowCommand := some (.termination .accept) }]

/-- **C7** (amended): `_visitIfOrElse` on a case body with more than one
block, when the sub-sequence base identifier is fresh, returns (as the
case's transition target) `<base>-1` — the sub-sequence numbering starts at
1, not 0; on `progSubSeq` the compiler assigns the module-level blocks the
strictly increasing labels `s-0`, `s-1` starting at 0, lowers the if case's
trailing blocks as `s-1-a-1`, `s-1-a-2`, and targets `s-1-a-1`. -/
theorem C7_subsequence_labels :
    (∀ (fuel : Nat) (blocks : List NormalBlockContext) (extraLabel : String)
        (st st2 : ConvState) (r : Option String) (cur : String),
        1 < blocks.length →
        cvGetCurrentLabel false st = some cur →
        jsGetNat st.identifierIndexMap
          (cvModuleLabelOf (cur ++ "-" ++ extraLabel) (cvCurrentArgs st)) = none →
        cvVisitIfOrElse fuel blocks extraLabel st = some (st2, r) →
        r = some (cvModuleLabelOf (cur ++ "-" ++ extraLabel) (cvCurrentArgs st) ++ "-1")) ∧
    (cvConvert 20 progSubSeq).map (fun tm => tm.states.map Prod.fst) =
      some ["s-0", "s-1", "s-1-a-1", "s-1-a-2"] ∧
    ((cvConvert 20 progSubSeq).bind fun tm => (tm.getState "s-1").bind
        fun st => (st.transitionFor "a").map IncompleteTMChange.nextState) =
      some "s-1-a-1" ∧
    (cvConvert 20 progSubSeq).map TuringMachine.initialState = some "s-0" := by
  refine ⟨?_, rfl, rfl, rfl⟩
  intro fuel blocks extraLabel st st2 r cur hlen hcur hfresh h
  cases fuel with
  | zero =>
      simp [cvVisitIfOrElse, cvF_zero] at h
  | succ n =>
      rw [cvVisitIfOrElse, cvF_succ] at h
      simp only [cvStepF, hlen, if_pos, hcur] at h
      rw [cvGenerateNextLabel] at h
      simp only [hfresh] at h
      split at h
      · simp only [Option.map_some', Option.some.injEq, Prod.mk.injEq] at h
        rw [← h.2, String.append_assoc]
        rfl
      · simp at h

/-- Witness for C7: the general statement applied to the if case of
`progSubSeq`, at the compiler state `stC7`. -/
theorem C7_subsequence_labels_witness :
    (cvVisitIfOrElse 16 ifBlocksC7 "a" stC7).map Prod.snd =
      some (some (cvModuleLabelOf ("s-1" ++ "-" ++ "a") (cvCurrentArgs stC7) ++ "-1")) := by
  rcases h : cvVisitIfOrElse 16 ifBlocksC7 "a" stC7 with _ | pr
  · have e : (cvVisitIfOrElse 16 ifBlocksC7 "a" stC7).isSome = true := rfl
    rw [h] at e
    exact absurd e (by simp)
  · have hthm := C7_subsequence_labels.1 16 ifBlocksC7 "a" stC7 pr.1 pr.2 "s-1"
      (by decide) rfl rfl (by rw [h])
    rw [Option.map_some', hthm]

/-- Whenever `visitGoTo` succeeds, the returned label is `cvGotoLabel` of the
command — a function of the command alone. -/
theorem cvF_goTo_label : ∀ (fuel : Nat) (g : GoToContext) (st : ConvState) (o : CvOut),
    cvF fuel (.goTo g) st = some o → o.label = some (cvGotoLabel g) := by
  intro fuel g st o h
  cases fuel with
  | zero => simp [cvF_zero] at h
  | succ n =>
      rw [cvF_succ] at h
      simp only [cvStepF] at h
      split at h
      · simp at h
      · split at h
        · simp only [Option.some.injEq] at h
          rw [← h]
          rfl
        · split at h
          · simp only [Option.some.injEq] at h
            rw [← h]
            rfl
          · simp at h

/-- The single block of `progExample1` (`changeto blank` / `move right`). -/
def blockEx1 : BasicBlockContext :=
  { changeToCommand := some { value := "" }, moveCommand := some { direction := .right },
    flowCommand := none }

/-- The compiler state at the moment `progExample1`'s block is lowered. -/
def stEx1 : ConvState :=
  { cvInitState progExample1 with
      identifierStack := ["m"], argMapStack := [[]],
      blocksStack := [[.basic blockEx1]], indexStack := [0],
      identifierIndexMap := [("m", 0)] }

/-- A basic block whose only command is `accept`. -/
def blockTermEx : BasicBlockContext :=
  { changeToCommand := none, moveCommand := none, flowCommand := some (.termination .accept) }

/-- A basic block whose only command is `goto m()`. -/
def blockGoToEx : BasicBlockContext :=
  { changeToCommand := none, moveCommand := none,
    flowCommand := some (.goTo { identifier := "m", args := [] }) }

/-- `stEx1` with the module map filled and `m()` already constructed. -/
def stExG : ConvState :=
  { stEx1 with
      idToModule := [("m", progExample1.modules.headD
        { identifier := "", params := [], blocks := [] })],
      constructedModules := [("m", [[]])] }

/-- **C5**: for every basic block the compiler lowers, the resulting
transition writes the (binding-resolved) ChangeTo symbol when a ChangeTo
command is present and nothing otherwise (so the automaton keeps the current
symbol), carries the Move command's direction when present (a missing
direction resolves to left at run time), and its next state is the label of
the explicit flow command when present — a termination's status label or the
goto's target label — and otherwise the fallthrough label, falling back to
the reserved label "reject"; in particular `progExample1` (spec §8
Example 1) compiles to exactly one constant state whose transition for every
input symbol is {write blank, move right, next "reject"}, and on the
flow-only program `progDefaults` the resolved transition keeps the current
symbol and moves left. -/
theorem C5_basic_block_lowering :
    (∀ (fuel : Nat) (b : BasicBlockContext) (st st2 : ConvState) (ch : IncompleteTMChange),
        b.flowCommand = none →
        cvGetTMChangeForBasicBlock fuel b st = some (st2, ch) →
        st2 = st ∧
        ch.nextState = (match cvIncrementIndexAndFindNextState st with
          | some l => l
          | none => "reject") ∧
        ch.letter = b.changeToCommand.map (fun c => getNextValue (cvCurrentArgumentMap st) c.value) ∧
        ch.direction = b.moveCommand.map MoveContext.direction) ∧
    (∀ (fuel : Nat) (b : BasicBlockContext) (st st2 : ConvState) (ch : IncompleteTMChange)
        (ts : TerminationState),
        b.flowCommand = some (.termination ts) →
        cvGetTMChangeForBasicBlock fuel b st = some (st2, ch) →
        st2 = st ∧
        ch.nextState = ts.label ∧
        ch.letter = b.changeToCommand.map (fun c => getNextValue (cvCurrentArgumentMap st) c.value) ∧
        ch.direction = b.moveCommand.map MoveContext.direction) ∧
    (∀ (fuel : Nat) (b : BasicBlockContext) (st st2 : ConvState) (ch : IncompleteTMChange)
        (g : GoToContext),
        b.flowCommand = some (.goTo g) →
        cvGetTMChangeForBasicBlock fuel b st = some (st2, ch) →
        ch.nextState = cvGotoLabel g ∧
        ch.letter = b.changeToCommand.map (fun c => getNextValue (cvCurrentArgumentMap st2) c.value) ∧
        ch.direction = b.moveCommand.map MoveContext.direction) ∧
    ((cvConvert 20 progExample1).map fun tm => tm.states.map Prod.fst) = some ["m-0"] ∧
    ((cvConvert 20 progExample1).bind fun tm => tm.getState "m-0") =
      some (TMState.constant { nextState := "reject", letter := some "", direction := some .right }) ∧
    (∀ l : String, ((cvConvert 20 progExample1).bind fun tm =>
        (tm.getState "m-0").bind fun s => s.transitionFor l) =
      some { nextState := "reject", letter := some "", direction := some .right }) ∧
    ((cvConvert 20 progDefaults).bind fun tm =>
        (tm.getState "m-0").bind fun s => (s.transitionFor "a").map fun ch => resolveChange ch "a") =
      some ("a", Direction.left) ∧
    ((cvConvert 20 progDefaults).bind fun tm =>
        (tm.getState "m-0").bind fun s => (s.transitionFor "").map fun ch => resolveChange ch "") =
      some ("", Direction.left) := by
  refine ⟨?_, ?_, ?_, rfl, rfl, fun l => rfl, rfl, rfl⟩
  · intro fuel b st st2 ch hflow h
    cases fuel with
    | zero => simp [cvGetTMChangeForBasicBlock, cvF_zero] at h
    | succ n =>
        rw [cvGetTMChangeForBasicBlock, cvF_succ] at h
        simp only [cvStepF, hflow] at h
        simp [cvOutChange] at h
        obtain ⟨hst, hch⟩ := h
        subst hst
        rw [← hch]
        exact ⟨rfl, rfl, rfl, rfl⟩
  · intro fuel b st st2 ch ts hflow h
    cases fuel with
    | zero => simp [cvGetTMChangeForBasicBlock, cvF_zero] at h
    | succ n =>
        rw [cvGetTMChangeForBasicBlock, cvF_succ] at h
        simp only [cvStepF, hflow] at h
        cases n with
        | zero => simp [cvF_zero] at h
        | succ k =>
            rw [cvF_succ] at h
            simp only [cvStepF] at h
            simp [cvOutLabel, cvOutChange] at h
            obtain ⟨hst, hch⟩ := h
            subst hst
            rw [← hch]
            exact ⟨rfl, rfl, rfl, rfl⟩
  · intro fuel b st st2 ch g hflow h
    cases fuel with
    | zero => simp [cvGetTMChangeForBasicBlock, cvF_zero] at h
    | succ n =>
        rw [cvGetTMChangeForBasicBlock, cvF_succ] at h
        simp only [cvStepF, hflow] at h
        cases n with
        | zero => simp [cvF_zero] at h
        | succ k =>
            rw [cvF_succ] at h
            simp only [cvStepF] at h
            rcases hg : cvF k (CvCall.goTo g) st with _ | o
            · rw [hg] at h; simp at h
            · rw [hg] at h
              have hl := cvF_goTo_label k g st o hg
              simp [hl, cvOutChange] at h
              obtain ⟨hst, hch⟩ := h
              subst hst
              rw [← hch]
              exact ⟨rfl, rfl, rfl⟩

/-- Witness for C5: the three flow cases applied to concrete blocks at
concrete compiler states (the Example 1 block under its lowering state, an
`accept`-only block, and a `goto m()` block with `m()` already
constructed). -/
theorem C5_basic_block_lowering_witness :
    (stEx1 = stEx1 ∧
     ("reject" : String) = (match cvIncrementIndexAndFindNextState stEx1 with
       | some l => l
       | none => "reject") ∧
     (some "" : Option String) =
       blockEx1.changeToCommand.map (fun c => getNextValue (cvCurrentArgumentMap stEx1) c.value) ∧
     (some Direction.right : Option Direction) = blockEx1.moveCommand.map MoveContext.direction) ∧
    (stEx1 = stEx1 ∧
     ("accept" : String) = TerminationState.accept.label ∧
     (none : Option String) =
       blockTermEx.changeToCommand.map (fun c => getNextValue (cvCurrentArgumentMap stEx1) c.value) ∧
     (none : Option Direction) = blockTermEx.moveCommand.map MoveContext.direction) ∧
    (("m-0" : String) = cvGotoLabel { identifier := "m", args := [] } ∧
     (none : Option String) =
       blockGoToEx.changeToCommand.map (fun c => getNextValue (cvCurrentArgumentMap stExG) c.value) ∧
     (none : Option Direction) = blockGoToEx.moveCommand.map MoveContext.direction) :=
  ⟨C5_basic_block_lowering.1 2 blockEx1 stEx1 stEx1
      { nextState := "reject", letter := some "", direction := some .right } rfl rfl,
   C5_basic_block_lowering.2.1 2 blockTermEx stEx1 stEx1
      { nextState := "accept", letter := none, direction := none } TerminationState.accept rfl rfl,
   C5_basic_block_lowering.2.2.1 4 blockGoToEx stExG stExG
      { nextState := "m-0", letter := none, direction := none }
      { identifier := "m", args := [] } rfl rfl⟩

/-- The core block of `progWhile`'s while case. -/
def cbW : CoreBasicBlockContext :=
  { changeToCommand := some { value := "a" }, moveCommand := some { direction := .right } }

/-- The compiler state at the moment `progWhile`'s switch block is lowered. -/
def stW6 : ConvState :=
  { cvInitState progWhile with
      identifierStack := ["w"], argMapStack := [[]],
      identifierIndexMap := [("w", 0)] }

/-- The interpreter state of `progWhile` on tape `"a"` at initialization. -/
def sWhile : ExecState :=
  { tape := TMTape.fromString "a", terminationStatus := none,
    currentBlocksStack := [(progWhile.modules.headD
      { identifier := "", params := [], blocks := [] }).blocks],
    currentBlockIndexStack := [0], argumentMapStack := [[]],
    topLevelModuleStack := [true] }

/-- `sWhile` after one step (only the tape has changed). -/
def sWhileAfter : ExecState :=
  { sWhile with tape := execApplyBlock sWhile.tape cbW.changeToCommand cbW.moveCommand "a" }

/-- **C6**: lowering a While case produces a transition whose next state is
the enclosing switch block's own current label — never a fresh successor —
and leaves the compiler state (in particular the machine's states)
completely unchanged, so no sub-sequence is created; correspondingly, when
the interpreter's current block is a switch block whose first applying case
is a While case, `execute` changes none of the four frame stacks and sets no
status, so the same switch block is the current block of the next step. -/
theorem C6_while_case_reenters_switch :
    (∀ (fuel : Nat) (vals : List String) (cb : CoreBasicBlockContext) (st st2 : ConvState)
        (ch : IncompleteTMChange) (lbl : String),
        cvGetCurrentLabel true st = some lbl →
        cvGetTMChangeForSwitchCase fuel (.whileCase vals cb) st = some (st2, ch) →
        st2 = st ∧ ch.nextState = lbl ∧
        ch.letter = cb.changeToCommand.map (fun c => getNextValue (cvCurrentArgumentMap st) c.value) ∧
        ch.direction = cb.moveCommand.map MoveContext.direction) ∧
    (∀ (p : ProgramContext) (s : ExecState) (cases : List CaseContext)
        (vals : List String) (cb : CoreBasicBlockContext) (r : Bool × ExecState),
        s.currentBlock = some (.switch cases) →
        (cases.find? fun c => caseApplies (s.tape.get 0)
            (match s.argumentMapStack with | mp :: _ => mp | [] => []) c) =
          some (.whileCase vals cb) →
        execute p s = some r →
        r.1 = true ∧
        r.2.currentBlocksStack = s.currentBlocksStack ∧
        r.2.currentBlockIndexStack = s.currentBlockIndexStack ∧
        r.2.argumentMapStack = s.argumentMapStack ∧
        r.2.topLevelModuleStack = s.topLevelModuleStack ∧
        r.2.terminationStatus = none ∧
        r.2.currentBlock = s.currentBlock) := by
  constructor
  · intro fuel vals cb st st2 ch lbl hlbl h
    cases fuel with
    | zero => simp [cvGetTMChangeForSwitchCase, cvF_zero] at h
    | succ n =>
        rw [cvGetTMChangeForSwitchCase, cvF_succ] at h
        simp only [cvStepF, CaseContext.firstBlock] at h
        cases n with
        | zero => simp [cvF_zero] at h
        | succ k =>
            rw [cvF_succ] at h
            simp only [cvStepF, hlbl] at h
            simp [cvOutLabel, cvOutChange] at h
            obtain ⟨hst, hch⟩ := h
            subst hst
            rw [← hch]
            exact ⟨rfl, rfl, rfl, rfl⟩
  · intro p s cases vals cb r hcur hfind h
    have hst : s.terminationStatus = none := by
      rcases e : s.terminationStatus with _ | t
      · rfl
      · rw [ExecState.currentBlock, e] at hcur
        cases hcur
    rw [execute, hst] at h
    simp only [execFindExecutionBlock, hcur, hfind, CaseContext.firstBlock] at h
    simp only [Option.some.injEq] at h
    rw [← h]
    refine ⟨rfl, rfl, rfl, rfl, rfl, hst, ?_⟩
    rw [ExecState.currentBlock, ExecState.currentBlock, hst]

/-- Witness for C6: both statements applied to `progWhile` — the while case
lowered at `stW6` (its transition re-enters `w-0` and the state is
untouched) and the interpreter stepped at `sWhile`. -/
theorem C6_while_case_reenters_switch_witness :
    (stW6 = stW6 ∧ ("w-0" : String) = "w-0" ∧
     (some "a" : Option String) =
       cbW.changeToCommand.map (fun c => getNextValue (cvCurrentArgumentMap stW6) c.value) ∧
     (some Direction.right : Option Direction) = cbW.moveCommand.map MoveContext.direction) ∧
    (true = true ∧
     sWhileAfter.currentBlocksStack = sWhile.currentBlocksStack ∧
     sWhileAfter.currentBlockIndexStack = sWhile.currentBlockIndexStack ∧
     sWhileAfter.argumentMapStack = sWhile.argumentMapStack ∧
     sWhileAfter.topLevelModuleStack = sWhile.topLevelModuleStack ∧
     sWhileAfter.terminationStatus = none ∧
     sWhileAfter.currentBlock = sWhile.currentBlock) :=
  ⟨C6_while_case_reenters_switch.1 2 ["a"] cbW stW6 stW6
      { nextState := "w-0", letter := some "a", direction := some .right } "w-0" rfl rfl,
   C6_while_case_reenters_switch.2 progWhile sWhile
      [.whileCase ["a"] cbW,
       .elseCase [.basic { changeToCommand := none, moveCommand := none,
                           flowCommand := some (.termination .accept) }]]
      ["a"] cbW (true, sWhileAfter) rfl rfl rfl⟩

/-- **C9**: for every advance of the parser's controlled token wrapper, the
`-1` malformed-dedent sentinel at the top of the indentation stack raises
"Invalid indentation." unconditionally; otherwise a stack shrink with
dedents not allowed raises "Unexpected de-indentation."; a stack growth
with indents not allowed raises "Unexpected indentation."; running out of
tokens (with throwing enabled and neither of the former applying) raises
"Unexpected end of file."; and a block header's `_matchIndent`, when the
controlled advance itself raises nothing but the stack did not grow by
exactly one level, raises "Expected indentation." — each as the single
error the advance produces. -/
theorem C9_controlled_advance_errors :
    (∀ (d i s : Bool) (prevLen : Nat) (newStack : List Int) (re : Bool),
        indentTop newStack = -1 →
        pMoveNext d i s prevLen newStack re = some "Invalid indentation.") ∧
    (∀ (i s : Bool) (prevLen : Nat) (newStack : List Int) (re : Bool),
        indentTop newStack ≠ -1 →
        newStack.length < prevLen →
        pMoveNext false i s prevLen newStack re = some "Unexpected de-indentation.") ∧
    (∀ (d s : Bool) (prevLen : Nat) (newStack : List Int) (re : Bool),
        indentTop newStack ≠ -1 →
        prevLen < newStack.length →
        pMoveNext d false s prevLen newStack re = some "Unexpected indentation.") ∧
    (∀ (d i : Bool) (prevLen : Nat) (newStack : List Int),
        indentTop newStack ≠ -1 →
        (newStack.length < prevLen → d = true) →
        (prevLen < newStack.length → i = true) →
        pMoveNext d i true prevLen newStack true = some "Unexpected end of file.") ∧
    (∀ (prevLen : Nat) (newStack : List Int) (re : Bool),
        pMoveNext false true true prevLen newStack re = none →
        newStack.length ≠ prevLen + 1 →
        pMatchIndent prevLen newStack re = some "Expected indentation.") := by
  refine ⟨?_, ?_, ?_, ?_, ?_⟩
  · intro d i s prevLen newStack re h
    simp [pMoveNext, h]
  · intro i s prevLen newStack re h hlt
    simp [pMoveNext, h, hlt]
  · intro d s prevLen newStack re h hgt
    simp [pMoveNext, h, hgt]
    omega
  · intro d i prevLen newStack h hd hi
    by_cases hlt : newStack.length < prevLen
    · simp [pMoveNext, h, hlt, hd hlt]
      intro _
      omega
    · by_cases hgt : prevLen < newStack.length
      · simp [pMoveNext, h, hlt, hgt, hi hgt]
      · simp [pMoveNext, h, hlt, hgt]
  · intro prevLen newStack re h hne
    rw [pMatchIndent, h]
    have e : ((prevLen : Int) != (newStack.length : Int) - 1) = true := by
      simp only [bne_iff_ne]
      omega
    simp [e]

/-- Witness for C9: the five error situations at concrete wrapper
transitions (a `-1` sentinel, an unrequested dedent, an unrequested indent,
end of input, and a block header not followed by an indent). -/
theorem C9_controlled_advance_errors_witness :
    pMoveNext true true true 1 [-1] false = some "Invalid indentation." ∧
    pMoveNext false true true 2 [0] false = some "Unexpected de-indentation." ∧
    pMoveNext true false true 1 [4, 0] false = some "Unexpected indentation." ∧
    pMoveNext true true true 1 [0] true = some "Unexpected end of file." ∧
    pMatchIndent 1 [0] false = some "Expected indentation." :=
  ⟨C9_controlled_advance_errors.1 true true true 1 [-1] false (by decide),
   C9_controlled_advance_errors.2.1 true true 2 [0] false (by decide) (by decide),
   C9_controlled_advance_errors.2.2.1 true true 1 [4, 0] false (by decide) (by decide),
   C9_controlled_advance_errors.2.2.2.1 true true 1 [0] (by decide)
     (fun hc => absurd hc (by decide)) (fun hc => absurd hc (by decide)),
   C9_controlled_advance_errors.2.2.2.2 1 [0] false rfl (by decide)⟩

theorem vvSwitchLetters_cons_param (ctx : VdCtx) (v : String) (rest : List String)
    (s : List String) (sp : Bool) (h : ctx.parameters.contains v = true) :
    vvSwitchLetters ctx (v :: rest) s sp = vvSwitchLetters ctx rest (s.erase v) true := by
  have h' : v ∈ ctx.parameters := by simpa using h
  rw [vvSwitchLetters]
  simp [h']

theorem vvSwitchLetters_cons_ok (ctx : VdCtx) (v : String) (rest : List String)
    (s : List String) (sp : Bool) (hp : ctx.parameters.contains v = false)
    (hba : v = "" ∨ ctx.alphabet.contains v = true) :
    vvSwitchLetters ctx (v :: rest) s sp = vvSwitchLetters ctx rest (s.erase v) sp := by
  have hp' : v ∉ ctx.parameters := by simpa using hp
  rw [vvSwitchLetters]
  rcases hba with hb | ha
  · subst hb; simp [hp']
  · have ha' : v ∈ ctx.alphabet := by simpa using ha
    by_cases hv : v = ""
    · subst hv; simp [hp']
    · simp [hv, hp', ha', displayLetter]

theorem vvSwitchLetters_ok (ctx : VdCtx) :
    ∀ (values : List String) (s : List String) (sp : Bool),
      (∀ v ∈ values,
        (ctx.parameters.contains v || (v == "") || ctx.alphabet.contains v) = true) →
      ∃ s1, vvSwitchLetters ctx values s sp =
        .ok (s1, sp || values.any fun v => ctx.parameters.contains v) := by
  intro values
  induction values with
  | nil => intro s sp _; exact ⟨s, by simp [vvSwitchLetters]⟩
  | cons v rest ih =>
      intro s sp h
      have hrest : ∀ w ∈ rest,
          (ctx.parameters.contains w || (w == "") || ctx.alphabet.contains w) = true :=
        fun w hw => h w (List.mem_cons_of_mem _ hw)
      cases hp : ctx.parameters.contains v with
      | true =>
          rw [vvSwitchLetters_cons_param ctx v rest s sp hp]
          obtain ⟨s1, h1⟩ := ih (s.erase v) true hrest
          refine ⟨s1, ?_⟩
          rw [h1]
          simp only [List.any_cons, hp]
          simp only [Bool.true_or, Bool.or_true]
      | false =>
          have hv := h v (List.mem_cons_self v rest)
          rw [hp] at hv
          simp only [Bool.false_or, Bool.or_eq_true, beq_iff_eq] at hv
          have hba : v = "" ∨ ctx.alphabet.contains v = true := hv
          rw [vvSwitchLetters_cons_ok ctx v rest s sp hp hba]
          obtain ⟨s1, h1⟩ := ih (s.erase v) sp hrest
          refine ⟨s1, ?_⟩
          rw [h1]
          have hnp : v ∉ ctx.parameters := by simpa using hp
          simp [List.any_cons, hnp]

theorem vvSwitchCollect_no_else (ctx : VdCtx) :
    ∀ (cases : List CaseContext) (s : List String) (se sp : Bool),
      (∀ c ∈ cases, isElseCase c = false) →
      (∀ c ∈ cases, ∀ v ∈ caseTriggerValues c,
        (ctx.parameters.contains v || (v == "") || ctx.alphabet.contains v) = true) →
      ∃ s1, vvSwitchCollect ctx cases s se sp =
        .ok (s1, se, sp || anyParamTrigger ctx cases) := by
  intro cases
  induction cases with
  | nil => intro s se sp _ _; exact ⟨s, by simp [vvSwitchCollect, anyParamTrigger]⟩
  | cons c rest ih =>
      intro s se sp hne hvals
      have hner : ∀ d ∈ rest, isElseCase d = false :=
        fun d hd => hne d (List.mem_cons_of_mem _ hd)
      have hvr : ∀ d ∈ rest, ∀ v ∈ caseTriggerValues d,
          (ctx.parameters.contains v || (v == "") || ctx.alphabet.contains v) = true :=
        fun d hd => hvals d (List.mem_cons_of_mem _ hd)
      have hvc := hvals c (List.mem_cons_self c rest)
      cases c with
      | elseCase blocks => exact absurd (hne _ (List.mem_cons_self _ rest)) (by simp [isElseCase])
      | ifCase values blocks =>
          obtain ⟨s1, h1⟩ := vvSwitchLetters_ok ctx values s sp
            (by simpa [caseTriggerValues] using hvc)
          obtain ⟨s2, h2⟩ := ih s1 se (sp || values.any fun v => ctx.parameters.contains v) hner hvr
          refine ⟨s2, ?_⟩
          rw [vvSwitchCollect]
          simp only [h1, Except.bind, bind]
          rw [h2]
          simp [anyParamTrigger, caseTriggerValues, Bool.or_assoc]
      | whileCase values blocks =>
          obtain ⟨s1, h1⟩ := vvSwitchLetters_ok ctx values s sp
            (by simpa [caseTriggerValues] using hvc)
          obtain ⟨s2, h2⟩ := ih s1 se (sp || values.any fun v => ctx.parameters.contains v) hner hvr
          refine ⟨s2, ?_⟩
          rw [vvSwitchCollect]
          simp only [h1, Except.bind, bind]
          rw [h2]
          simp [anyParamTrigger, caseTriggerValues, Bool.or_assoc]

theorem vvSwitchCollect_else_last (ctx : VdCtx) :
    ∀ (init : List CaseContext) (blocks : List NormalBlockContext)
      (s : List String) (sp : Bool),
      (∀ c ∈ init, isElseCase c = false) →
      (∀ c ∈ init, ∀ v ∈ caseTriggerValues c,
        (ctx.parameters.contains v || (v == "") || ctx.alphabet.contains v) = true) →
      ∃ s1 sp1, vvSwitchCollect ctx (init ++ [.elseCase blocks]) s false sp =
        .ok (s1, true, sp1) := by
  intro init
  induction init with
  | nil =>
      intro blocks s sp _ _
      refine ⟨s, sp, ?_⟩
      simp [vvSwitchCollect]
  | cons c rest ih =>
      intro blocks s sp hne hvals
      have hner : ∀ d ∈ rest, isElseCase d = false :=
        fun d hd => hne d (List.mem_cons_of_mem _ hd)
      have hvr : ∀ d ∈ rest, ∀ v ∈ caseTriggerValues d,
          (ctx.parameters.contains v || (v == "") || ctx.alphabet.contains v) = true :=
        fun d hd => hvals d (List.mem_cons_of_mem _ hd)
      have hvc := hvals c (List.mem_cons_self c rest)
      cases c with
      | elseCase blocks2 => exact absurd (hne _ (List.mem_cons_self _ rest)) (by simp [isElseCase])
      | ifCase values blocks2 =>
          obtain ⟨s1, h1⟩ := vvSwitchLetters_ok ctx values s sp
            (by simpa [caseTriggerValues] using hvc)
          obtain ⟨s2, sp2, h2⟩ := ih blocks s1 (sp || values.any fun v => ctx.parameters.contains v) hner hvr
          refine ⟨s2, sp2, ?_⟩
          rw [List.cons_append, vvSwitchCollect]
          simp only [h1, Except.bind, bind]
          exact h2
      | whileCase values blocks2 =>
          obtain ⟨s1, h1⟩ := vvSwitchLetters_ok ctx values s sp
            (by simpa [caseTriggerValues] using hvc)
          obtain ⟨s2, sp2, h2⟩ := ih blocks s1 (sp || values.any fun v => ctx.parameters.contains v) hner hvr
          refine ⟨s2, sp2, ?_⟩
          rw [List.cons_append, vvSwitchCollect]
          simp only [h1, Except.bind, bind]
          exact h2

/-- **C4**: in the canonical (Else-required, parameter-aware) validator
variant, a switch block with no else case in which some trigger value of an
if or while case is a bound module parameter is rejected with the
"must have an else case" error; conversely a switch block whose cases end
with an else case is never rejected for coverage, whatever parameter
triggers it uses. -/
theorem C4_param_trigger_requires_else (ctx : VdCtx) (cases : List CaseContext)
    (hvals : ∀ c ∈ cases, ∀ v ∈ caseTriggerValues c,
      (ctx.parameters.contains v || (v == "") || ctx.alphabet.contains v) = true)
    (hbody : vvVisitAllCases ctx cases = .ok ()) :
    ((∀ c ∈ cases, isElseCase c = false) → anyParamTrigger ctx cases = true →
      vvVisitSwitchBlock ctx cases = .error vvMustElseMessage) ∧
    (∀ init blocks, cases = init ++ [.elseCase blocks] →
      (∀ c ∈ init, isElseCase c = false) →
      vvVisitSwitchBlock ctx cases = .ok ()) := by
  constructor
  · intro hne hpar
    obtain ⟨s1, hc⟩ := vvSwitchCollect_no_else ctx cases
      (ctx.parameters.foldl setAdd (setAdd ctx.alphabet "")) false false hne hvals
    rw [vvVisitSwitchBlock]
    simp [hc, hbody, hpar, bind, Except.bind, throw, throwThe, MonadExceptOf.throw]
  · intro init blocks hcases hne
    subst hcases
    have hvi : ∀ c ∈ init, ∀ v ∈ caseTriggerValues c,
        (ctx.parameters.contains v || (v == "") || ctx.alphabet.contains v) = true :=
      fun c hc => hvals c (List.mem_append_left _ hc)
    obtain ⟨s1, sp1, hc⟩ := vvSwitchCollect_else_last ctx init blocks
      (ctx.parameters.foldl setAdd (setAdd ctx.alphabet "")) false hne hvi
    rw [vvVisitSwitchBlock]
    simp [hc, hbody, bind, Except.bind, pure, Except.pure]

/-- Witness for C4 on a concrete switch block over alphabet `[a, b]` with
bound parameter `x`: the if case on `[a, x]` without an else is rejected
with the must-have-else message, and the same case followed by an else is
accepted. -/
theorem C4_param_trigger_requires_else_witness :
    vvVisitSwitchBlock { alphabet := ["a", "b"], moduleNames := [], parameters := ["x"] }
      [.ifCase ["a", "x"]
        [.basic ⟨none, none, some (.termination TerminationState.accept)⟩]] =
      .error vvMustElseMessage ∧
    vvVisitSwitchBlock { alphabet := ["a", "b"], moduleNames := [], parameters := ["x"] }
      [.ifCase ["a", "x"]
        [.basic ⟨none, none, some (.termination TerminationState.accept)⟩],
       .elseCase [.basic ⟨none, none, some (.termination TerminationState.reject)⟩]] =
      .ok () := by
  constructor
  · exact (C4_param_trigger_requires_else _ _
      (by intro c hc v hv; fin_cases hc <;> fin_cases hv <;> decide)
      (by simp [vvVisitAllCases, vvVisitCase, vvVisitAllBlocks, vvVisitBlock,
            vvVisitBasicBlock, bind, Except.bind, pure, Except.pure])).1
      (by intro c hc; fin_cases hc; decide) (by decide)
  · exact (C4_param_trigger_requires_else _ _
      (by intro c hc v hv; fin_cases hc <;> fin_cases hv <;> decide)
      (by simp [vvVisitAllCases, vvVisitCase, vvVisitAllBlocks, vvVisitBlock,
            vvVisitBasicBlock, bind, Except.bind, pure, Except.pure])).2
      [.ifCase ["a", "x"]
        [.basic ⟨none, none, some (.termination TerminationState.accept)⟩]]
      [.basic ⟨none, none, some (.termination TerminationState.reject)⟩]
      rfl (by intro c hc; fin_cases hc; decide)

theorem setAdd_nodup (s : List String) (v : String) (h : s.Nodup) : (setAdd s v).Nodup := by
  unfold setAdd
  split
  · exact h
  · next hc =>
      have : v ∉ s := by simpa using hc
      simp [List.nodup_append, h, this]

theorem subset_setAdd (s : List String) (v : String) : s ⊆ setAdd s v := by
  unfold setAdd
  split
  · exact fun x hx => hx
  · exact fun x hx => List.mem_append_left _ hx

theorem mem_setAdd_self (s : List String) (v : String) : v ∈ setAdd s v := by
  unfold setAdd
  split
  · next hc => simpa using hc
  · exact List.mem_append_right _ (List.mem_singleton.mpr rfl)

theorem foldl_setAdd_nodup : ∀ (l s : List String), s.Nodup → (l.foldl setAdd s).Nodup
  | [], s, h => h
  | v :: rest, s, h => foldl_setAdd_nodup rest (setAdd s v) (setAdd_nodup s v h)

theorem subset_foldl_setAdd : ∀ (l s : List String), s ⊆ l.foldl setAdd s
  | [], _ => fun x hx => hx
  | v :: rest, s => fun x hx =>
      subset_foldl_setAdd rest (setAdd s v) (subset_setAdd s v hx)

theorem foldl_erase_eq_filter :
    ∀ (values s : List String), s.Nodup →
      values.foldl List.erase s = s.filter fun x => !values.contains x
  | [], s, _ => by simp
  | v :: vs, s, h => by
      have h1 : (s.erase v).Nodup := h.erase v
      have ih := foldl_erase_eq_filter vs (s.erase v) h1
      rw [List.foldl_cons, ih, List.Nodup.erase_eq_filter h, List.filter_filter]
      refine List.filter_congr ?_
      intro x _
      by_cases hx : x = v <;> simp [hx]

theorem vdSwitchLetters_ok_of (ctx : VdCtx) :
    ∀ (values s : List String), values.Nodup → (∀ v ∈ values, v ∈ s) →
      (∀ v ∈ values, v = "" ∨ v ∈ ctx.alphabet) →
      vdSwitchLetters ctx values s = .ok (values.foldl List.erase s)
  | [], s, _, _, _ => by simp [vdSwitchLetters]
  | v :: rest, s, hnd, hmem, hval => by
      have hv := hval v (List.mem_cons_self v rest)
      have hvs : v ∈ s := hmem v (List.mem_cons_self v rest)
      have hrec := vdSwitchLetters_ok_of ctx rest (s.erase v)
        (List.Nodup.of_cons hnd)
        (fun w hw => by
          have hne : w ≠ v := by
            intro he
            exact (List.nodup_cons.mp hnd).1 (he ▸ hw)
          exact (List.mem_erase_of_ne hne).mpr (hmem w (List.mem_cons_of_mem _ hw)))
        (fun w hw => hval w (List.mem_cons_of_mem _ hw))
      rw [vdSwitchLetters]
      have hchk : (v != "" && !ctx.alphabet.contains (displayLetter v)) = false := by
        rcases hv with hb | ha
        · simp [hb]
        · have : displayLetter v = v ∨ v = "" := by
            unfold displayLetter; by_cases hb : v = "" <;> simp [hb]
          rcases this with hd | hb
          · simp [hd, ha]
          · simp [hb]
      simp only [hchk, Bool.false_eq_true, if_false, setDelete]
      have hcv : s.contains v = true := by simpa using hvs
      simp only [hcv, Bool.not_true, Bool.false_eq_true, if_false]
      exact hrec

theorem vdSwitchLetters_cons_of_valid (ctx : VdCtx) (v : String) (rest s : List String)
    (hv : v = "" ∨ v ∈ ctx.alphabet) :
    vdSwitchLetters ctx (v :: rest) s =
      if s.contains v then vdSwitchLetters ctx rest (s.erase v)
      else .error (vdDuplicateMessage v) := by
  rw [vdSwitchLetters]
  have hchk : (v != "" && !ctx.alphabet.contains (displayLetter v)) = false := by
    rcases hv with hb | ha
    · simp [hb]
    · by_cases hb : v = ""
      · simp [hb]
      · simp [displayLetter, hb, ha]
  simp only [hchk, Bool.false_eq_true, if_false, setDelete]
  by_cases hs : s.contains v <;> simp [hs]

theorem vdSwitchLetters_dup (ctx : VdCtx) :
    ∀ (values s : List String), s.Nodup →
      (∀ v ∈ values, v = "" ∨ v ∈ ctx.alphabet) →
      (¬values.Nodup ∨ ∃ w ∈ values, w ∉ s) →
      ∃ l ∈ values, vdSwitchLetters ctx values s = .error (vdDuplicateMessage l) ∧
        (2 ≤ values.count l ∨ l ∉ s)
  | [], s, _, _, H => by
      rcases H with H | ⟨w, hw, _⟩
      · exact absurd List.nodup_nil H
      · cases hw
  | v :: rest, s, hsnd, hval, H => by
      have hv := hval v (List.mem_cons_self v rest)
      rw [vdSwitchLetters_cons_of_valid ctx v rest s hv]
      by_cases hs : s.contains v
      · have hvins : v ∈ s := by simpa using hs
        have H' : ¬rest.Nodup ∨ ∃ w ∈ rest, w ∉ s.erase v := by
          rcases H with H | ⟨w, hw, hws⟩
          · by_cases hvr : v ∈ rest
            · exact Or.inr ⟨v, hvr, hsnd.not_mem_erase⟩
            · refine Or.inl fun hnd => H (List.nodup_cons.mpr ⟨hvr, hnd⟩)
          · rcases List.mem_cons.mp hw with he | hr
            · exact absurd hvins (he ▸ hws)
            · exact Or.inr ⟨w, hr, fun hmem => hws (List.mem_of_mem_erase hmem)⟩
        obtain ⟨l, hl, herr, hcase⟩ := vdSwitchLetters_dup ctx rest (s.erase v)
          (hsnd.erase v) (fun w hw => hval w (List.mem_cons_of_mem _ hw)) H'
        refine ⟨l, List.mem_cons_of_mem _ hl, by simpa [hvins] using herr, ?_⟩
        rcases hcase with hc | hc
        · left
          have := List.count_cons l v rest
          have hle : rest.count l ≤ (v :: rest).count l := by
            rw [List.count_cons]; omega
          omega
        · by_cases hlv : l = v
          · left
            have h1 : 0 < rest.count l := List.count_pos_iff.mpr hl
            rw [List.count_cons, if_pos (show (v == l) = true by simp [hlv])]
            omega
          · right
            intro hls
            exact hc ((List.mem_erase_of_ne hlv).mpr hls)
      · have hvnotin : v ∉ s := by simpa using hs
        exact ⟨v, List.mem_cons_self v rest, by simp [hvnotin], Or.inr hvnotin⟩

theorem vdSwitchLetters_ok_inv (ctx : VdCtx) :
    ∀ (values s s1 : List String), s.Nodup →
      vdSwitchLetters ctx values s = .ok s1 →
      values.Nodup ∧ (∀ v ∈ values, v ∈ s) ∧ s1 = values.foldl List.erase s
  | [], s, s1, _, h => by
      simp [vdSwitchLetters] at h
      exact ⟨List.nodup_nil, fun v hv => absurd hv (List.not_mem_nil v), by simp [h.symm]⟩
  | v :: rest, s, s1, hsnd, h => by
      rw [vdSwitchLetters] at h
      split at h
      · exact absurd h (by simp)
      · simp only [setDelete] at h
        by_cases hc : s.contains v
        case neg =>
          rw [if_pos (by simpa using hc)] at h
          exact absurd h (by simp)
        case pos =>
          rw [if_neg (by simpa using hc)] at h
          have hvins : v ∈ s := by simpa using hc
          obtain ⟨hnd, hmem, hs1⟩ := vdSwitchLetters_ok_inv ctx rest (s.erase v) s1
            (hsnd.erase v) h
          refine ⟨List.nodup_cons.mpr ⟨?_, hnd⟩, ?_, ?_⟩
          · intro hvr
            exact hsnd.not_mem_erase (hmem v hvr)
          · intro w hw
            rcases List.mem_cons.mp hw with he | hr
            · exact he ▸ hvins
            · exact List.mem_of_mem_erase (hmem w hr)
          · simpa using hs1

theorem vdSwitchCasesLoop_dup (ctx : VdCtx) :
    ∀ (cases : List CaseContext) (s : List String) (hf se : Bool),
      s.Nodup →
      (∀ c ∈ cases, isElseCase c = false) →
      (∀ c ∈ cases, ∃ b, vdVisitCase ctx c = .ok b) →
      (∀ c ∈ cases, ∀ v ∈ caseTriggerValues c, v = "" ∨ v ∈ ctx.alphabet) →
      (¬(cases.flatMap caseTriggerValues).Nodup ∨
        ∃ w ∈ cases.flatMap caseTriggerValues, w ∉ s) →
      ∃ l ∈ cases.flatMap caseTriggerValues,
        vdSwitchCasesLoop ctx cases s hf se = .error (vdDuplicateMessage l) ∧
        (2 ≤ (cases.flatMap caseTriggerValues).count l ∨ l ∉ s) := by
  intro cases
  induction cases with
  | nil =>
      intro s hf se _ _ _ _ H
      rcases H with H | ⟨w, hw, _⟩
      · exact absurd (by simp : (List.flatMap [] caseTriggerValues).Nodup) H
      · simp at hw
  | cons c rest ih =>
      intro s hf se hsnd hne hbodies hval H
      have hner : ∀ d ∈ rest, isElseCase d = false :=
        fun d hd => hne d (List.mem_cons_of_mem _ hd)
      have hbr : ∀ d ∈ rest, ∃ b, vdVisitCase ctx d = .ok b :=
        fun d hd => hbodies d (List.mem_cons_of_mem _ hd)
      have hvr : ∀ d ∈ rest, ∀ v ∈ caseTriggerValues d, v = "" ∨ v ∈ ctx.alphabet :=
        fun d hd => hval d (List.mem_cons_of_mem _ hd)
      cases c with
      | elseCase blocks =>
          exact absurd (hne _ (List.mem_cons_self _ rest)) (by simp [isElseCase])
      | ifCase values blocks =>
          have hvc : ∀ v ∈ values, v = "" ∨ v ∈ ctx.alphabet := by
            simpa [caseTriggerValues] using hval _ (List.mem_cons_self _ rest)
          simp only [List.flatMap_cons, caseTriggerValues] at H ⊢
          by_cases hA : values.Nodup ∧ ∀ w ∈ values, w ∈ s
          · have hlet := vdSwitchLetters_ok_of ctx values s hA.1 hA.2 hvc
            rw [foldl_erase_eq_filter values s hsnd] at hlet
            obtain ⟨b, hb⟩ := hbodies _ (List.mem_cons_self _ rest)
            have hs'nd : (s.filter fun x => !values.contains x).Nodup := hsnd.filter _
            have hsub : ∀ x ∈ s.filter (fun x => !values.contains x), x ∈ s :=
              fun x hx => (List.mem_filter.mp hx).1
            have hnotmem : ∀ x ∈ values, x ∉ s.filter (fun x => !values.contains x) := by
              intro x hx hmem
              have h2 := (List.mem_filter.mp hmem).2
              simp [hx] at h2
            have H' : ¬(rest.flatMap caseTriggerValues).Nodup ∨
                ∃ w ∈ rest.flatMap caseTriggerValues,
                  w ∉ s.filter (fun x => !values.contains x) := by
              rcases H with H | ⟨w, hw, hws⟩
              · by_cases hrn : (rest.flatMap caseTriggerValues).Nodup
                · have hnd : ¬ values.Disjoint (rest.flatMap caseTriggerValues) := by
                    intro hdisj
                    exact H (List.nodup_append.mpr ⟨hA.1, hrn, hdisj⟩)
                  have hx : ∃ x ∈ values, x ∈ rest.flatMap caseTriggerValues := by
                    by_contra hno
                    push_neg at hno
                    exact hnd fun a ha hb2 => hno a ha hb2
                  obtain ⟨x, hx1, hx2⟩ := hx
                  exact Or.inr ⟨x, hx2, hnotmem x hx1⟩
                · exact Or.inl hrn
              · rcases List.mem_append.mp hw with hwl | hwr
                · exact absurd (hA.2 w hwl) hws
                · exact Or.inr ⟨w, hwr, fun hmem => hws (hsub w hmem)⟩
            obtain ⟨l, hl, herr, hcase⟩ := ih (s.filter fun x => !values.contains x)
              (hf || b) se hs'nd hner hbr hvr H'
            refine ⟨l, List.mem_append_right _ hl, ?_, ?_⟩
            · simp only [vdSwitchCasesLoop, hlet, hb, bind, Except.bind]
              exact herr
            · rw [List.count_append]
              rcases hcase with hc | hc
              · left; omega
              · by_cases hlv : l ∈ values
                · left
                  have h1 : 0 < values.count l := List.count_pos_iff.mpr hlv
                  have h2 : 0 < (rest.flatMap caseTriggerValues).count l :=
                    List.count_pos_iff.mpr hl
                  omega
                · right
                  intro hls
                  exact hc (List.mem_filter.mpr ⟨hls, by simpa using hlv⟩)
          · have H0 : ¬values.Nodup ∨ ∃ w ∈ values, w ∉ s := by
              by_cases h1 : values.Nodup
              · right
                by_contra h2
                push_neg at h2
                exact hA ⟨h1, h2⟩
              · exact Or.inl h1
            obtain ⟨l, hl, herr, hcase⟩ := vdSwitchLetters_dup ctx values s hsnd hvc H0
            refine ⟨l, List.mem_append_left _ hl, ?_, ?_⟩
            · simp only [vdSwitchCasesLoop, herr, bind, Except.bind]
            · rw [List.count_append]
              rcases hcase with hc | hc
              · left; omega
              · exact Or.inr hc
      | whileCase values cb =>
          have hvc : ∀ v ∈ values, v = "" ∨ v ∈ ctx.alphabet := by
            simpa [caseTriggerValues] using hval _ (List.mem_cons_self _ rest)
          simp only [List.flatMap_cons, caseTriggerValues] at H ⊢
          by_cases hA : values.Nodup ∧ ∀ w ∈ values, w ∈ s
          · have hlet := vdSwitchLetters_ok_of ctx values s hA.1 hA.2 hvc
            rw [foldl_erase_eq_filter values s hsnd] at hlet
            obtain ⟨b, hb⟩ := hbodies _ (List.mem_cons_self _ rest)
            have hs'nd : (s.filter fun x => !values.contains x).Nodup := hsnd.filter _
            have hsub : ∀ x ∈ s.filter (fun x => !values.contains x), x ∈ s :=
              fun x hx => (List.mem_filter.mp hx).1
            have hnotmem : ∀ x ∈ values, x ∉ s.filter (fun x => !values.contains x) := by
              intro x hx hmem
              have h2 := (List.mem_filter.mp hmem).2
              simp [hx] at h2
            have H' : ¬(rest.flatMap caseTriggerValues).Nodup ∨
                ∃ w ∈ rest.flatMap caseTriggerValues,
                  w ∉ s.filter (fun x => !values.contains x) := by
              rcases H with H | ⟨w, hw, hws⟩
              · by_cases hrn : (rest.flatMap caseTriggerValues).Nodup
                · have hnd : ¬ values.Disjoint (rest.flatMap caseTriggerValues) := by
                    intro hdisj
                    exact H (List.nodup_append.mpr ⟨hA.1, hrn, hdisj⟩)
                  have hx : ∃ x ∈ values, x ∈ rest.flatMap caseTriggerValues := by
                    by_contra hno
                    push_neg at hno
                    exact hnd fun a ha hb2 => hno a ha hb2
                  obtain ⟨x, hx1, hx2⟩ := hx
                  exact Or.inr ⟨x, hx2, hnotmem x hx1⟩
                · exact Or.inl hrn
              · rcases List.mem_append.mp hw with hwl | hwr
                · exact absurd (hA.2 w hwl) hws
                · exact Or.inr ⟨w, hwr, fun hmem => hws (hsub w hmem)⟩
            obtain ⟨l, hl, herr, hcase⟩ := ih (s.filter fun x => !values.contains x)
              (hf || b) se hs'nd hner hbr hvr H'
            refine ⟨l, List.mem_append_right _ hl, ?_, ?_⟩
            · simp only [vdSwitchCasesLoop, hlet, hb, bind, Except.bind]
              exact herr
            · rw [List.count_append]
              rcases hcase with hc | hc
              · left; omega
              · by_cases hlv : l ∈ values
                · left
                  have h1 : 0 < values.count l := List.count_pos_iff.mpr hlv
                  have h2 : 0 < (rest.flatMap caseTriggerValues).count l :=
                    List.count_pos_iff.mpr hl
                  omega
                · right
                  intro hls
                  exact hc (List.mem_filter.mpr ⟨hls, by simpa using hlv⟩)
          · have H0 : ¬values.Nodup ∨ ∃ w ∈ values, w ∉ s := by
              by_cases h1 : values.Nodup
              · right
                by_contra h2
                push_neg at h2
                exact hA ⟨h1, h2⟩
              · exact Or.inl h1
            obtain ⟨l, hl, herr, hcase⟩ := vdSwitchLetters_dup ctx values s hsnd hvc H0
            refine ⟨l, List.mem_append_left _ hl, ?_, ?_⟩
            · simp only [vdSwitchCasesLoop, herr, bind, Except.bind]
            · rw [List.count_append]
              rcases hcase with hc | hc
              · left; omega
              · exact Or.inr hc

theorem vdSwitchCasesLoop_ok_inv (ctx : VdCtx) :
    ∀ (cases : List CaseContext) (s : List String) (hf se : Bool)
      (r : List String × Bool × Bool),
      s.Nodup →
      (∀ c ∈ cases, isElseCase c = false) →
      vdSwitchCasesLoop ctx cases s hf se = .ok r →
      (cases.flatMap caseTriggerValues).Nodup ∧
      (∀ v ∈ cases.flatMap caseTriggerValues, v ∈ s) ∧
      r.1 = (s.filter fun x => !(cases.flatMap caseTriggerValues).contains x) ∧
      r.2.2 = se := by
  intro cases
  induction cases with
  | nil =>
      intro s hf se r _ _ h
      simp [vdSwitchCasesLoop] at h
      refine ⟨by simp, by simp, ?_, ?_⟩
      · rw [← h]; simp
      · rw [← h]
  | cons c rest ih =>
      intro s hf se r hsnd hne h
      have hner : ∀ d ∈ rest, isElseCase d = false :=
        fun d hd => hne d (List.mem_cons_of_mem _ hd)
      cases c with
      | elseCase blocks =>
          exact absurd (hne _ (List.mem_cons_self _ rest)) (by simp [isElseCase])
      | ifCase values blocks =>
          rw [vdSwitchCasesLoop] at h
          cases hlet : vdSwitchLetters ctx values s with
          | error e => rw [hlet] at h; exact absurd h (by simp [bind, Except.bind])
          | ok s1 =>
              rw [hlet] at h
              cases hcase : vdVisitCase ctx (.ifCase values blocks) with
              | error e => rw [hcase] at h; exact absurd h (by simp [bind, Except.bind])
              | ok f =>
                  rw [hcase] at h
                  simp only [bind, Except.bind] at h
                  obtain ⟨hvnd, hvmem, hs1⟩ := vdSwitchLetters_ok_inv ctx values s s1 hsnd hlet
                  rw [foldl_erase_eq_filter values s hsnd] at hs1
                  subst hs1
                  obtain ⟨hrnd, hrmem, hr1, hr2⟩ := ih _ (hf || f) se r (hsnd.filter _) hner h
                  have hsub : ∀ x ∈ s.filter (fun x => !values.contains x), x ∈ s :=
                    fun x hx => (List.mem_filter.mp hx).1
                  refine ⟨?_, ?_, ?_, hr2⟩
                  · simp only [List.flatMap_cons, caseTriggerValues]
                    refine List.nodup_append.mpr ⟨hvnd, hrnd, ?_⟩
                    intro a ha hab
                    have := List.mem_filter.mp (hrmem a hab)
                    simp [ha] at this
                  · simp only [List.flatMap_cons, caseTriggerValues]
                    intro v hv
                    rcases List.mem_append.mp hv with hvl | hvr2
                    · exact hvmem v hvl
                    · exact hsub v (hrmem v hvr2)
                  · rw [hr1, List.filter_filter]
                    refine List.filter_congr ?_
                    intro x _
                    simp only [List.flatMap_cons, caseTriggerValues]
                    by_cases h1 : x ∈ values <;> by_cases h2 : x ∈ rest.flatMap caseTriggerValues <;>
                      simp [h1, h2]
      | whileCase values cb =>
          rw [vdSwitchCasesLoop] at h
          cases hlet : vdSwitchLetters ctx values s with
          | error e => rw [hlet] at h; exact absurd h (by simp [bind, Except.bind])
          | ok s1 =>
              rw [hlet] at h
              cases hcase : vdVisitCase ctx (.whileCase values cb) with
              | error e => rw [hcase] at h; exact absurd h (by simp [bind, Except.bind])
              | ok f =>
                  rw [hcase] at h
                  simp only [bind, Except.bind] at h
                  obtain ⟨hvnd, hvmem, hs1⟩ := vdSwitchLetters_ok_inv ctx values s s1 hsnd hlet
                  rw [foldl_erase_eq_filter values s hsnd] at hs1
                  subst hs1
                  obtain ⟨hrnd, hrmem, hr1, hr2⟩ := ih _ (hf || f) se r (hsnd.filter _) hner h
                  have hsub : ∀ x ∈ s.filter (fun x => !values.contains x), x ∈ s :=
                    fun x hx => (List.mem_filter.mp hx).1
                  refine ⟨?_, ?_, ?_, hr2⟩
                  · simp only [List.flatMap_cons, caseTriggerValues]
                    refine List.nodup_append.mpr ⟨hvnd, hrnd, ?_⟩
                    intro a ha hab
                    have := List.mem_filter.mp (hrmem a hab)
                    simp [ha] at this
                  · simp only [List.flatMap_cons, caseTriggerValues]
                    intro v hv
                    rcases List.mem_append.mp hv with hvl | hvr2
                    · exact hvmem v hvl
                    · exact hsub v (hrmem v hvr2)
                  · rw [hr1, List.filter_filter]
                    refine List.filter_congr ?_
                    intro x _
                    simp only [List.flatMap_cons, caseTriggerValues]
                    by_cases h1 : x ∈ values <;> by_cases h2 : x ∈ rest.flatMap caseTriggerValues <;>
                      simp [h1, h2]

/-- **C8** (amended): for a switch block with no else case, over a
duplicate-free alphabet, whose case bodies validate and whose trigger values
are alphabet symbols or blank, `src/CodeValidator.ts` raises the
duplicate-coverage error (naming a letter that occurs at least twice in the
concatenated trigger lists) whenever the trigger lists are not
duplicate-free; and whenever the switch block validates, every alphabet
symbol and the blank is covered exactly once.  A *parameter* trigger value,
by contrast, never reaches the duplicate check (see the counterexample). -/
theorem C8_duplicate_coverage (ctx : VdCtx) (cases : List CaseContext)
    (halpha : ctx.alphabet.Nodup)
    (hne : ∀ c ∈ cases, isElseCase c = false)
    (hbodies : ∀ c ∈ cases, ∃ b, vdVisitCase ctx c = .ok b)
    (hvals : ∀ c ∈ cases, ∀ v ∈ caseTriggerValues c, v = "" ∨ v ∈ ctx.alphabet) :
    (¬(cases.flatMap caseTriggerValues).Nodup →
      ∃ l ∈ cases.flatMap caseTriggerValues,
        vdVisitSwitchBlock ctx cases = .error (vdDuplicateMessage l) ∧
        2 ≤ (cases.flatMap caseTriggerValues).count l) ∧
    (∀ b, vdVisitSwitchBlock ctx cases = .ok b →
      ∀ v, (v = "" ∨ v ∈ ctx.alphabet) →
        (cases.flatMap caseTriggerValues).count v = 1) := by
  have hs0nd : (ctx.parameters.foldl setAdd (setAdd ctx.alphabet "")).Nodup :=
    foldl_setAdd_nodup _ _ (setAdd_nodup _ _ halpha)
  have hs0mem : ∀ v, (v = "" ∨ v ∈ ctx.alphabet) →
      v ∈ ctx.parameters.foldl setAdd (setAdd ctx.alphabet "") := by
    intro v hv
    apply subset_foldl_setAdd
    rcases hv with hb | ha
    · exact hb ▸ mem_setAdd_self _ _
    · exact subset_setAdd _ _ ha
  constructor
  · intro hdup
    have hsubflat : ∀ w ∈ cases.flatMap caseTriggerValues,
        w ∈ ctx.parameters.foldl setAdd (setAdd ctx.alphabet "") := by
      intro w hw
      obtain ⟨c, hc, hwc⟩ := List.mem_flatMap.mp hw
      exact hs0mem w (hvals c hc w hwc)
    obtain ⟨l, hl, herr, hcase⟩ := vdSwitchCasesLoop_dup ctx cases
      (ctx.parameters.foldl setAdd (setAdd ctx.alphabet "")) false false
      hs0nd hne hbodies hvals (Or.inl hdup)
    refine ⟨l, hl, ?_, ?_⟩
    · rw [vdVisitSwitchBlock]
      simp only [herr, bind, Except.bind]
    · rcases hcase with hc | hc
      · exact hc
      · exact absurd (hsubflat l hl) hc
  · intro b h v hv
    rw [vdVisitSwitchBlock] at h
    cases hloop : vdSwitchCasesLoop ctx cases
        (ctx.parameters.foldl setAdd (setAdd ctx.alphabet "")) false false with
    | error e => rw [hloop] at h; exact absurd h (by simp [bind, Except.bind])
    | ok r =>
        rw [hloop] at h
        simp only [bind, Except.bind] at h
        obtain ⟨hnd, hmem, hr1, hr2⟩ := vdSwitchCasesLoop_ok_inv ctx cases
          (ctx.parameters.foldl setAdd (setAdd ctx.alphabet "")) false false r
          hs0nd hne hloop
        rw [hr2] at h
        have hempty : r.1.length = 0 := by
          by_contra hlen
          rw [if_pos (by simp [hlen])] at h
          exact absurd h (by simp [throw, throwThe, MonadExceptOf.throw])
        have hr1nil : r.1 = [] := List.eq_nil_of_length_eq_zero hempty
        rw [hr1nil] at hr1
        have hcov : ∀ x ∈ ctx.parameters.foldl setAdd (setAdd ctx.alphabet ""),
            x ∈ cases.flatMap caseTriggerValues := by
          intro x hx
          have := (List.filter_eq_nil.mp hr1.symm) x hx
          simpa using this
        have h1 : 0 < (cases.flatMap caseTriggerValues).count v :=
          List.count_pos_iff.mpr (hcov v (hs0mem v hv))
        have h2 : (cases.flatMap caseTriggerValues).count v ≤ 1 :=
          List.nodup_iff_count_le_one.mp hnd v
        omega

/-- **C8 counterexample**: the claim also covers *parameter* trigger values,
but `src/CodeValidator.ts` rejects a duplicated parameter trigger `x` with
the not-part-of-the-alphabet error (raised before the duplicate check), which
is not the duplicate-coverage message for any letter; and the validator
variant embedded in `CodeParserErrors.spec.ts` performs no duplicate
detection at all: a switch block covering `a` twice and blank once over
alphabet `[a]` is accepted silently. -/
theorem C8_counterexample_param_trigger :
    (vdVisitSwitchBlock { alphabet := ["a"], moduleNames := [], parameters := ["x"] }
      [.ifCase ["x", "x"]
        [.basic ⟨none, none, some (.termination TerminationState.accept)⟩]] =
      .error "The letter \"x\" is not part of the alphabet.") ∧
    (∀ l, vdDuplicateMessage l ≠ "The letter \"x\" is not part of the alphabet.") ∧
    (vvVisitSwitchBlock { alphabet := ["a"], moduleNames := [], parameters := ["x"] }
      [.ifCase ["a", "a", ""]
        [.basic ⟨none, none, some (.termination TerminationState.accept)⟩]] =
      .ok ()) := by
  refine ⟨?_, ?_, ?_⟩
  · simp [vdVisitSwitchBlock, vdSwitchCasesLoop, vdSwitchLetters, vdVisitCase,
      vdValidateBlocksLoop, vdVisitBlock, vdVisitBasicBlock, setAdd, setDelete,
      displayLetter, bind, Except.bind, pure, Except.pure, throw, throwThe,
      MonadExceptOf.throw]
  · intro l h
    have h2 := congrArg (fun s => s.data.head?) h
    simp only [vdDuplicateMessage, String.data_append] at h2
    simp at h2
  · simp [vvVisitSwitchBlock, vvSwitchCollect, vvSwitchLetters, vvVisitAllCases,
      vvVisitCase, vvVisitAllBlocks, vvVisitBlock, vvVisitBasicBlock, setAdd,
      mkSet, displayLetter, bind, Except.bind, pure, Except.pure, throw, throwThe,
      MonadExceptOf.throw]

/-- Witness for C8: on alphabet `[a, b]` with no parameters, the switch
block whose single if case triggers on `[a, a]` is rejected with the
duplicate-coverage error for a twice-occurring letter, and in the accepted
switch block `if [a] / while [b, blank]` the letter `b` is covered exactly
once. -/
theorem C8_duplicate_coverage_witness :
    (∃ l ∈ List.flatMap
        [CaseContext.ifCase ["a", "a"]
          [.basic ⟨none, none, some (.termination TerminationState.accept)⟩]]
        caseTriggerValues,
      vdVisitSwitchBlock { alphabet := ["a", "b"], moduleNames := [], parameters := [] }
        [.ifCase ["a", "a"]
          [.basic ⟨none, none, some (.termination TerminationState.accept)⟩]] =
        .error (vdDuplicateMessage l) ∧
      2 ≤ (List.flatMap
        [CaseContext.ifCase ["a", "a"]
          [.basic ⟨none, none, some (.termination TerminationState.accept)⟩]]
        caseTriggerValues).count l) ∧
    (List.flatMap
        [CaseContext.ifCase ["a"]
          [.basic ⟨none, none, some (.termination TerminationState.accept)⟩],
         CaseContext.whileCase ["b", ""] ⟨none, none⟩]
        caseTriggerValues).count "b" = 1 := by
  constructor
  · exact (C8_duplicate_coverage
      { alphabet := ["a", "b"], moduleNames := [], parameters := [] }
      [.ifCase ["a", "a"]
        [.basic ⟨none, none, some (.termination TerminationState.accept)⟩]]
      (by decide)
      (by intro c hc; fin_cases hc; decide)
      (by
        intro c hc
        fin_cases hc
        exact ⟨true, by
          simp [vdVisitCase, vdValidateBlocksLoop, vdVisitBlock, vdVisitBasicBlock,
            bind, Except.bind, pure, Except.pure]⟩)
      (by intro c hc v hv; fin_cases hc <;> fin_cases hv <;> simp)
      ).1 (by decide)
  · exact (C8_duplicate_coverage
      { alphabet := ["a", "b"], moduleNames := [], parameters := [] }
      [.ifCase ["a"]
        [.basic ⟨none, none, some (.termination TerminationState.accept)⟩],
       .whileCase ["b", ""] ⟨none, none⟩]
      (by decide)
      (by intro c hc; fin_cases hc <;> decide)
      (by
        intro c hc
        fin_cases hc
        · exact ⟨true, by
            simp [vdVisitCase, vdValidateBlocksLoop, vdVisitBlock, vdVisitBasicBlock,
              bind, Except.bind, pure, Except.pure]⟩
        · exact ⟨false, by simp [vdVisitCase]⟩)
      (by intro c hc v hv; fin_cases hc <;> fin_cases hv <;> simp)
      ).2 true
      (by
        simp [vdVisitSwitchBlock, vdSwitchCasesLoop, vdSwitchLetters, vdVisitCase,
          vdValidateBlocksLoop, vdVisitBlock, vdVisitBasicBlock, setAdd, setDelete,
          displayLetter, bind, Except.bind, pure, Except.pure])
      "b" (by simp)

theorem cmGet_cmSet_self : ∀ (l : List (String × List (List String))) (k : String)
    (v : List (List String)), cmGet (cmSet l k v) k = some v
  | [], k, v => by simp [cmSet, cmGet]
  | (k0, v0) :: rest, k, v => by
      by_cases h : k0 = k
      · simp [cmSet, cmGet, h]
      · have hb : (k0 == k) = false := by simpa using h
        simp [cmSet, cmGet, hb]
        exact cmGet_cmSet_self rest k v

theorem c2ArgPush_idToModule (st : ConvState) : (c2ArgPush st).idToModule = st.idToModule := rfl

theorem c2ModBodyOf_idToModule (m : ModuleContext) (st : ConvState) :
    (c2ModBodyOf m st).idToModule = st.idToModule := rfl

theorem c2_inv_preserved (st : ConvState)
    (h2 : cvIsModuleConstructed "m" ["a", "b"] st = false) :
    cvIsModuleConstructed "m" ["a", "b"] (c2ModBodyOf moduleDup (c2ArgPush st)) = false := by
  have hcm : (c2ModBodyOf moduleDup (c2ArgPush st)).constructedModules =
      cmSet st.constructedModules "m"
        ((match cmGet st.constructedModules "m" with
          | some l => l
          | none => []) ++ [["b"]]) := rfl
  unfold cvIsModuleConstructed at h2 ⊢
  rw [hcm, cmGet_cmSet_self]
  simp only [List.any_append]
  rw [h2]
  decide

theorem c2_flow_none (st : ConvState) :
    ∀ j, (∀ i, i < j → cvF i (.goTo gotoDup) st = none) →
      cvF j (.flow (.goTo gotoDup)) st = none
  | 0, _ => rfl
  | j + 1, h => by
      rw [cvF_succ]
      show cvStepF (cvF j) (.flow (.goTo gotoDup)) st = none
      simp only [cvStepF]
      exact h j (Nat.lt_succ_self j)

theorem c2_change_none (st : ConvState) :
    ∀ j, (∀ i, i < j → cvF i (.goTo gotoDup) st = none) →
      cvF j (.changeForBasicBlock dupBlock) st = none
  | 0, _ => rfl
  | j + 1, h => by
      rw [cvF_succ]
      show cvStepF (cvF j) (.changeForBasicBlock dupBlock) st = none
      have hf := c2_flow_none st j fun i hi => h i (Nat.lt_succ_of_lt hi)
      simp only [cvStepF, dupBlock, hf]

theorem c2_basic_none (st : ConvState) :
    ∀ j, (∀ i, i < j → cvF i (.goTo gotoDup) st = none) →
      cvF j (.basicBlock dupBlock) st = none
  | 0, _ => rfl
  | j + 1, h => by
      rw [cvF_succ]
      show cvStepF (cvF j) (.basicBlock dupBlock) st = none
      have hc := c2_change_none st j fun i hi => h i (Nat.lt_succ_of_lt hi)
      simp only [cvStepF, hc]

theorem c2_blockVisit_none (st : ConvState) :
    ∀ j, (∀ i, i < j → cvF i (.goTo gotoDup) st = none) →
      cvF j (.blockVisit (.basic dupBlock)) st = none
  | 0, _ => rfl
  | j + 1, h => by
      rw [cvF_succ]
      show cvStepF (cvF j) (.blockVisit (.basic dupBlock)) st = none
      have hb := c2_basic_none st j fun i hi => h i (Nat.lt_succ_of_lt hi)
      simp only [cvStepF, hb]

theorem c2_blocksLoop_none (st : ConvState) :
    ∀ j, (∀ i, i < j → cvF i (.goTo gotoDup) st = none) →
      cvF j (.blocksLoop [.basic dupBlock]) st = none
  | 0, _ => rfl
  | j + 1, h => by
      rw [cvF_succ]
      show cvStepF (cvF j) (.blocksLoop [.basic dupBlock]) st = none
      have hb := c2_blockVisit_none st j fun i hi => h i (Nat.lt_succ_of_lt hi)
      simp only [cvStepF, hb]

theorem c2_moduleVisit_none (m : ModuleContext) (hm : m.blocks = [.basic dupBlock])
    (st : ConvState) :
    ∀ j, (∀ i, i < j → cvF i (.goTo gotoDup) (c2ModBodyOf m st) = none) →
      cvF j (.moduleVisit m) st = none
  | 0, _ => rfl
  | j + 1, h => by
      rw [cvF_succ]
      show cvStepF (cvF j) (.moduleVisit m) st = none
      have hl := c2_blocksLoop_none (c2ModBodyOf m st) j fun i hi => h i (Nat.lt_succ_of_lt hi)
      rw [← hm] at hl
      simp only [cvStepF, c2ModBodyOf] at hl ⊢
      rw [hl]

theorem cvF_goTo_dup_none :
    ∀ (fuel : Nat) (st : ConvState),
      st.idToModule.lookup "m" = some moduleDup →
      cvIsModuleConstructed "m" ["a", "b"] st = false →
      cvF fuel (.goTo gotoDup) st = none := by
  intro fuel
  induction fuel using Nat.strong_induction_on with
  | _ fuel ih =>
      intro st h1 h2
      match fuel with
      | 0 => rfl
      | n + 1 =>
          rw [cvF_succ]
          show cvStepF (cvF n) (.goTo gotoDup) st = none
          have hmod : cvF n (.moduleVisit moduleDup) (c2ArgPush st) = none := by
            apply c2_moduleVisit_none moduleDup rfl (c2ArgPush st) n
            intro i hi
            apply ih i (Nat.lt_succ_of_lt hi)
            · rw [c2ModBodyOf_idToModule, c2ArgPush_idToModule]
              exact h1
            · exact c2_inv_preserved st h2
          have h1' : st.idToModule.lookup gotoDup.identifier = some moduleDup := h1
          simp only [cvStepF, h1']
          have h2' : cvIsModuleConstructed moduleDup.identifier gotoDup.args st = false := h2
          rw [h2']
          simp only [Bool.false_eq_true, if_false]
          have : cvGenerateAndPushArgumentMap moduleDup.params gotoDup.args st = c2ArgPush st := rfl
          rw [this, hmod]

/-- **C2**: the claim states that compilation terminates for every valid
program.  `progDupParam` (a module `m(x, x)` with duplicate parameters,
reached by `goto m(a, b)`) is accepted by the validator, but the compiler
records the invocation under the argument map's *values* `[b]` (the
duplicate key collapses the map) while `_isModuleConstructed` compares that
tuple pointwise against the goto's arguments `[a, b]`; the pair never
matches, so `visitGoTo` re-enters `visitModule` forever and `convert`
returns no machine at any fuel. -/
theorem C2_duplicate_params_compilation_never_terminates :
    vvValidate progDupParam = .ok () ∧
    ∀ fuel, cvConvert fuel progDupParam = none := by
  constructor
  · simp [vvValidate, vvAddModuleNames, vvVisitAllModules, vvVisitModule, vvVisitAllBlocks,
      vvVisitBlock, vvVisitSwitchBlock, vvSwitchCollect, vvSwitchLetters, vvVisitAllCases,
      vvVisitCase, vvVisitBasicBlock, vvVisitGoTo, vdVisitChangeTo, mkSet, setAdd,
      progDupParam, displayLetter, bind, Except.bind, pure, Except.pure, List.lookup]
  · intro fuel
    match fuel with
    | 0 => rfl
    | n + 1 =>
        have hstep : cvVisitProgram (n + 1) progDupParam (cvInitState progDupParam) =
            cvVisitModule n c2MainModule c2StartState := rfl
        have hmodv : cvF n (.moduleVisit c2MainModule) c2StartState = none := by
          apply c2_moduleVisit_none c2MainModule rfl c2StartState n
          intro i _
          apply cvF_goTo_dup_none i
          · rfl
          · rfl
        show (cvVisitProgram (n + 1) progDupParam (cvInitState progDupParam)).map ConvState.tm = none
        rw [hstep]
        unfold cvVisitModule
        rw [hmodv]
        rfl

theorem goodBlockList_mem : ∀ (bs : List NormalBlockContext) (b : NormalBlockContext),
    goodBlockList bs = true → b ∈ bs → goodBlock b = true
  | b0 :: rest, b, h, hm => by
      rw [goodBlockList] at h
      simp only [Bool.and_eq_true] at h
      rcases List.mem_cons.mp hm with he | hr
      · exact he ▸ h.1
      · exact goodBlockList_mem rest b h.2 hr

theorem goodCaseList_mem : ∀ (cs : List CaseContext) (c : CaseContext),
    goodCaseList cs = true → c ∈ cs → goodCase c = true
  | c0 :: rest, c, h, hm => by
      rw [goodCaseList] at h
      simp only [Bool.and_eq_true] at h
      rcases List.mem_cons.mp hm with he | hr
      · exact he ▸ h.1
      · exact goodCaseList_mem rest c h.2 hr

theorem exec_iip_ok :
    ∀ (bs : List (List NormalBlockContext)) (idxs : List Nat) (ms : List Bool)
      (maps : List JsMap),
      bs.length = idxs.length → bs.length = ms.length →
      (List.zip bs idxs).all (fun bi => frameOK bi.1 bi.2) = true →
      (execIncrementIndexAndPop bs idxs ms maps).1.length =
        (execIncrementIndexAndPop bs idxs ms maps).2.1.length ∧
      (execIncrementIndexAndPop bs idxs ms maps).1.length =
        (execIncrementIndexAndPop bs idxs ms maps).2.2.1.length ∧
      (List.zip (execIncrementIndexAndPop bs idxs ms maps).1
        (execIncrementIndexAndPop bs idxs ms maps).2.1).all
        (fun bi => frameOK bi.1 bi.2) = true
  | [], idxs, ms, maps, h1, h2, h3 => by
      simp [execIncrementIndexAndPop] at h1 h2 ⊢
      exact ⟨h1, h2⟩
  | b :: restB, [], ms, maps, h1, h2, h3 => by
      simp at h1
  | b :: restB, i :: restI, [], maps, h1, h2, h3 => by
      simp at h2
  | b :: restB, i :: restI, m :: restM, maps, h1, h2, h3 => by
      by_cases hlt : i + 1 < b.length
      · have hunf : execIncrementIndexAndPop (b :: restB) (i :: restI) (m :: restM) maps =
            (b :: restB, (i + 1) :: restI, m :: restM, maps) := by
          rw [execIncrementIndexAndPop]
          simp [hlt]
        rw [hunf]
        refine ⟨by simpa using h1, by simpa using h2, ?_⟩
        simp only [List.zip_cons_cons, List.all_cons, Bool.and_eq_true] at h3 ⊢
        refine ⟨?_, h3.2⟩
        have h31 := h3.1
        simp only [frameOK, Bool.and_eq_true] at h31 ⊢
        exact ⟨by simpa using hlt, h31.2⟩
      · have hunf : execIncrementIndexAndPop (b :: restB) (i :: restI) (m :: restM) maps =
            execIncrementIndexAndPop restB restI restM (if m then maps.tail else maps) := by
          rw [execIncrementIndexAndPop]
          simp [hlt]
        rw [hunf]
        have h1' : restB.length = restI.length := by simpa using h1
        have h2' : restB.length = restM.length := by simpa using h2
        have h3' : (List.zip restB restI).all (fun bi => frameOK bi.1 bi.2) = true := by
          simp only [List.zip_cons_cons, List.all_cons, Bool.and_eq_true] at h3
          exact h3.2
        exact exec_iip_ok restB restI restM (if m then maps.tail else maps) h1' h2' h3'

theorem execInv_none (s : ExecState) (hts : s.terminationStatus = none) :
    execInv s = true ↔
      (s.currentBlocksStack ≠ [] ∧
       s.currentBlocksStack.length = s.currentBlockIndexStack.length ∧
       s.currentBlocksStack.length = s.topLevelModuleStack.length ∧
       (List.zip s.currentBlocksStack s.currentBlockIndexStack).all
         (fun bi => frameOK bi.1 bi.2) = true) := by
  unfold execInv
  rw [hts]
  simp only [Bool.and_eq_true, List.isEmpty_iff, Bool.not_eq_true, beq_iff_eq,
    List.all_eq_true, decide_eq_true_eq]
  constructor
  · rintro ⟨⟨⟨a, b⟩, c⟩, d⟩
    refine ⟨?_, b, c, by simpa using d⟩
    intro he
    rw [he] at a
    simp at a
  · rintro ⟨a, b, c, d⟩
    refine ⟨⟨⟨?_, b⟩, c⟩, by simpa using d⟩
    simpa using a

theorem execFindNextBlock_inv (p : ProgramContext) (s : ExecState) (b : BasicBlockContext)
    (s3 : ExecState) (hwf : execWF p = true) (hts : s.terminationStatus = none)
    (hinv : execInv s = true) (h : execFindNextBlock p s b = some s3) :
    execInv s3 = true := by
  obtain ⟨hne, hl1, hl2, hall⟩ := (execInv_none s hts).mp hinv
  rw [execFindNextBlock] at h
  split at h
  · next cmd =>
      split at h
      · next nm hfind =>
          have hmem : nm ∈ p.modules := List.mem_of_find?_eq_some hfind
          have hgood : (!nm.blocks.isEmpty) = true ∧ goodBlockList nm.blocks = true := by
            simp only [execWF, Bool.and_eq_true, List.all_eq_true] at hwf
            exact hwf.2 nm hmem
          have hlen : 0 < nm.blocks.length := by
            cases hb : nm.blocks with
            | nil => rw [hb] at hgood; simp at hgood
            | cons x xs => simp [hb]
          injection h with h
          subst h
          rw [execInv_none _ (by simpa [execPushBlocks] using hts)]
          refine ⟨by simp [execPushBlocks], ?_, ?_, ?_⟩
          · simp only [execPushBlocks, List.length_cons]
            simpa using hl1
          · simp only [execPushBlocks, List.length_cons]
            simpa using hl2
          · simp only [execPushBlocks, List.zip_cons_cons, List.all_cons, Bool.and_eq_true]
            exact ⟨by simp [frameOK, hlen, hgood.2], hall⟩
      · exact absurd h (by simp)
  · next ts =>
      injection h with h
      subst h
      simp [execInv]
  · next =>
      have hiip := exec_iip_ok s.currentBlocksStack s.currentBlockIndexStack
        s.topLevelModuleStack s.argumentMapStack hl1 hl2 hall
      simp only [beq_iff_eq] at h
      split at h
      · injection h with h
        subst h
        simp [execInv]
      · next hlen =>
          injection h with h
          subst h
          rw [execInv_none _ (by simpa using hts)]
          refine ⟨?_, hiip.1, hiip.2.1, hiip.2.2⟩
          have hne2 : (execIncrementIndexAndPop s.currentBlocksStack s.currentBlockIndexStack
              s.topLevelModuleStack s.argumentMapStack).1.length ≠ 0 := by simpa using hlen
          intro hnil
          apply hne2
          have h3 : (execIncrementIndexAndPop s.currentBlocksStack s.currentBlockIndexStack
              s.topLevelModuleStack s.argumentMapStack).1 = [] := by simpa using hnil
          rw [h3]
          rfl

theorem currentBlock_good (s : ExecState) (nb : NormalBlockContext)
    (hts : s.terminationStatus = none) (hinv : execInv s = true)
    (hcb : s.currentBlock = some nb) : goodBlock nb = true := by
  obtain ⟨hne, hl1, hl2, hall⟩ := (execInv_none s hts).mp hinv
  unfold ExecState.currentBlock at hcb
  rw [hts] at hcb
  cases hbs : s.currentBlocksStack with
  | nil => exact absurd hbs hne
  | cons bs restB =>
      cases his : s.currentBlockIndexStack with
      | nil => rw [hbs, his] at hl1; simp at hl1
      | cons i restI =>
          rw [hbs, his] at hcb hall
          simp only [List.zip_cons_cons, List.all_cons, Bool.and_eq_true] at hall
          have hfo := hall.1
          simp only [frameOK, Bool.and_eq_true] at hfo
          have hmem : nb ∈ bs := List.get?_mem hcb
          exact goodBlockList_mem bs nb hfo.2 hmem

theorem execFindExecutionBlock_inv (s : ExecState) (th : String) (s1 : ExecState)
    (eb : BasicBlockContext ⊕ CoreBasicBlockContext)
    (hts : s.terminationStatus = none) (hinv : execInv s = true)
    (h : execFindExecutionBlock s th = some (s1, eb)) :
    s1.terminationStatus = none ∧ execInv s1 = true ∧
    (∀ cb, eb = Sum.inr cb → s1 = s) := by
  rw [execFindExecutionBlock] at h
  cases hcb : s.currentBlock with
  | none => rw [hcb] at h; simp at h
  | some nb =>
      rw [hcb] at h
      have hgood := currentBlock_good s nb hts hinv hcb
      cases nb with
      | basic b =>
          obtain ⟨rfl, rfl⟩ : s = s1 ∧ Sum.inl b = eb := by simpa using h
          exact ⟨hts, hinv, by intro cb hcb2; cases hcb2⟩
      | switch cases =>
          simp only at h
          cases hfind : cases.find? (fun c => caseApplies th
              (match s.argumentMapStack with | mp :: _ => mp | [] => []) c) with
          | none => rw [hfind] at h; simp at h
          | some c =>
              rw [hfind] at h
              have hcmem : c ∈ cases := List.mem_of_find?_eq_some hfind
              have hcgood : goodCase c = true := by
                rw [goodBlock] at hgood
                exact goodCaseList_mem cases c hgood hcmem
              cases c with
              | whileCase values cb0 =>
                  obtain ⟨rfl, rfl⟩ : s = s1 ∧ Sum.inr cb0 = eb := by
                    simpa [CaseContext.firstBlock] using h
                  exact ⟨hts, hinv, fun _ _ => rfl⟩
              | ifCase values blocks =>
                  cases blocks with
                  | nil => simp [CaseContext.firstBlock] at h
                  | cons x xs =>
                      cases x with
                      | switch cs2 => simp [CaseContext.firstBlock] at h
                      | basic b2 =>
                          obtain ⟨rfl, rfl⟩ :
                              execPushBlocks s (NormalBlockContext.basic b2 :: xs) false = s1 ∧
                                Sum.inl b2 = eb := by
                            simpa [CaseContext.firstBlock] using h
                          rw [goodCase] at hcgood
                          simp only [Bool.and_eq_true] at hcgood
                          refine ⟨by simpa [execPushBlocks] using hts, ?_, ?_⟩
                          · rw [execInv_none _ (by simpa [execPushBlocks] using hts)]
                            obtain ⟨hne, hl1, hl2, hall⟩ := (execInv_none s hts).mp hinv
                            refine ⟨by simp [execPushBlocks], ?_, ?_, ?_⟩
                            · simp only [execPushBlocks, List.length_cons]
                              simpa using hl1
                            · simp only [execPushBlocks, List.length_cons]
                              simpa using hl2
                            · simp only [execPushBlocks, List.zip_cons_cons, List.all_cons,
                                Bool.and_eq_true]
                              exact ⟨by simp [frameOK, hcgood.2], hall⟩
                          · intro cb2 hcb2
                            cases hcb2
              | elseCase blocks =>
                  cases blocks with
                  | nil => simp [CaseContext.firstBlock] at h
                  | cons x xs =>
                      cases x with
                      | switch cs2 => simp [CaseContext.firstBlock] at h
                      | basic b2 =>
                          obtain ⟨rfl, rfl⟩ :
                              execPushBlocks s (NormalBlockContext.basic b2 :: xs) false = s1 ∧
                                Sum.inl b2 = eb := by
                            simpa [CaseContext.firstBlock] using h
                          rw [goodCase] at hcgood
                          simp only [Bool.and_eq_true] at hcgood
                          refine ⟨by simpa [execPushBlocks] using hts, ?_, ?_⟩
                          · rw [execInv_none _ (by simpa [execPushBlocks] using hts)]
                            obtain ⟨hne, hl1, hl2, hall⟩ := (execInv_none s hts).mp hinv
                            refine ⟨by simp [execPushBlocks], ?_, ?_, ?_⟩
                            · simp only [execPushBlocks, List.length_cons]
                              simpa using hl1
                            · simp only [execPushBlocks, List.length_cons]
                              simpa using hl2
                            · simp only [execPushBlocks, List.zip_cons_cons, List.all_cons,
                                Bool.and_eq_true]
                              exact ⟨by simp [frameOK, hcgood.2], hall⟩
                          · intro cb2 hcb2
                            cases hcb2

theorem execute_inv (p : ProgramContext) (s : ExecState) (bres : Bool) (s3 : ExecState)
    (hwf : execWF p = true) (hinv : execInv s = true)
    (h : execute p s = some (bres, s3)) : execInv s3 = true := by
  rw [execute] at h
  cases hts : s.terminationStatus with
  | some ts =>
      rw [hts] at h
      obtain ⟨rfl, rfl⟩ : false = bres ∧ s = s3 := by simpa using h
      exact hinv
  | none =>
      rw [hts] at h
      have h' : (match execFindExecutionBlock s (s.tape.get 0) with
          | none => none
          | some (s1, Sum.inl b) =>
              (match execFindNextBlock p { s1 with tape := execApplyBlock s1.tape b.changeToCommand b.moveCommand (s.tape.get 0) } b with
               | some s4 => some (true, s4)
               | none => none)
          | some (s1, Sum.inr cb) =>
              some (true, { s1 with tape := execApplyBlock s1.tape cb.changeToCommand cb.moveCommand (s.tape.get 0) })) = some (bres, s3) := h
      clear h
      cases hfe : execFindExecutionBlock s (s.tape.get 0) with
      | none => rw [hfe] at h'; simp at h'
      | some pr =>
          obtain ⟨s1, eb⟩ := pr
          rw [hfe] at h'
          obtain ⟨hts1, hinv1, hwhile⟩ :=
            execFindExecutionBlock_inv s (s.tape.get 0) s1 eb hts hinv hfe
          cases eb with
          | inr cb =>
              simp only [Option.some.injEq, Prod.mk.injEq] at h'
              obtain ⟨rfl, rfl⟩ := h'
              rw [execInv_none _ (by simpa using hts1)]
              exact (execInv_none s1 hts1).mp hinv1
          | inl b =>
              simp only at h'
              cases hfn : execFindNextBlock p { s1 with tape := execApplyBlock s1.tape b.changeToCommand b.moveCommand (s.tape.get 0) } b with
              | none => rw [hfn] at h'; simp at h'
              | some s4 =>
                  rw [hfn] at h'
                  simp only [Option.some.injEq, Prod.mk.injEq] at h'
                  obtain ⟨rfl, rfl⟩ := h'
                  refine execFindNextBlock_inv p _ b s4 hwf (by simpa using hts1) ?_ hfn
                  rw [execInv_none _ (by simpa using hts1)]
                  exact (execInv_none s1 hts1).mp hinv1

theorem execNew_inv (p : ProgramContext) (value : String) (s0 : ExecState)
    (hwf : execWF p = true) (h : execNew value p = some s0) : execInv s0 = true := by
  rw [execNew] at h
  split at h
  · split at h
    · next m0 rest hm =>
        injection h with h
        subst h
        have hgood : (!m0.blocks.isEmpty) = true ∧ goodBlockList m0.blocks = true := by
          simp only [execWF, Bool.and_eq_true, List.all_eq_true] at hwf
          exact hwf.2 m0 (by rw [hm]; exact List.mem_cons_self m0 rest)
        have hlen : 0 < m0.blocks.length := by
          cases hb : m0.blocks with
          | nil => rw [hb] at hgood; simp at hgood
          | cons x xs => simp [hb]
        rw [execInv_none _ rfl]
        refine ⟨by simp, by simp, by simp, ?_⟩
        simp only [List.zip_cons_cons, List.zip_nil_right, List.all_cons, List.all_nil,
          Bool.and_eq_true]
        exact ⟨by simp [frameOK, hlen, hgood.2], trivial⟩
    · exact absurd h (by simp)
  · exact absurd h (by simp)

theorem execReach_inv (p : ProgramContext) (s0 s : ExecState) (hwf : execWF p = true)
    (hinv0 : execInv s0 = true) (hreach : ExecReach p s0 s) : execInv s = true := by
  induction hreach with
  | refl => exact hinv0
  | step s2 s3 b hr hstep ih => exact execute_inv p s2 b s3 hwf ih hstep

/-- **C10**: for every well-formed program and accepted initial tape, in
every reachable interpreter state whose termination status is set, `execute`
returns `false` immediately and leaves the state (tape, frame stacks and
status) unchanged; and `currentBlock` is `undefined` exactly when the
termination status is defined (while unterminated, the maintained frame
invariant keeps the top index in range, so a block always exists). -/
theorem C10_execute_noop_after_termination (p : ProgramContext) (tape : String)
    (s0 s : ExecState) (hwf : execWF p = true) (hinit : execNew tape p = some s0)
    (hreach : ExecReach p s0 s) :
    (∀ ts, s.terminationStatus = some ts → execute p s = some (false, s)) ∧
    (s.currentBlock = none ↔ s.terminationStatus.isSome = true) := by
  have hinv : execInv s = true :=
    execReach_inv p s0 s hwf (execNew_inv p tape s0 hwf hinit) hreach
  constructor
  · intro ts hts
    rw [execute, hts]
  · constructor
    · intro hcb
      cases hts : s.terminationStatus with
      | some ts => simp
      | none =>
          obtain ⟨hne, hl1, hl2, hall⟩ := (execInv_none s hts).mp hinv
          rw [ExecState.currentBlock, hts] at hcb
          cases hbs : s.currentBlocksStack with
          | nil => exact absurd hbs hne
          | cons bs restB =>
              cases his : s.currentBlockIndexStack with
              | nil => rw [hbs, his] at hl1; simp at hl1
              | cons i restI =>
                  rw [hbs, his] at hcb hall
                  simp only [List.zip_cons_cons, List.all_cons, Bool.and_eq_true] at hall
                  have hfo := hall.1
                  simp only [frameOK, Bool.and_eq_true, decide_eq_true_eq] at hfo
                  simp only [List.get?_eq_none] at hcb
                  omega
    · intro hsome
      cases hts : s.terminationStatus with
      | none => rw [hts] at hsome; simp at hsome
      | some ts => simp [ExecState.currentBlock, hts]

/-- Witness for C10: on `progTiny` with tape `"a"`, the state reached after
one accepting step answers `execute` with `(false, unchanged)` and has no
current block. -/
theorem C10_execute_noop_after_termination_witness :
    execute progTiny c10TermState = some (false, c10TermState) ∧
    (c10TermState.currentBlock = none ↔ c10TermState.terminationStatus.isSome = true) := by
  have h := C10_execute_noop_after_termination progTiny "a" c10StartState c10TermState rfl rfl
    (ExecReach.step c10StartState c10StartState c10TermState true
      (ExecReach.refl c10StartState) rfl)
  exact ⟨h.1 TerminationState.accept rfl, h.2⟩
